import Mathlib

/-!
Verification development for the NeuroVista-Back neuroimaging pipeline backend.

The Python sources are shallowly embedded in Lean:
* numeric volume values (Python floats holding decimal data) are modelled as
  exact rationals `ℚ`; arithmetic inside the embedding is written with
  kernel-computable operations (`mkRat` plus integer arithmetic) so that
  concrete runs of the embedded code can be checked by `decide`;
* the filesystem is an explicit parameter `String → Option String`
  (path → file contents) or `String → Bool` (path existence);
* external tool invocations are reified as values of an `Invocation` type:
  an embedded stage returns the list of invocations it performs;
* Python exceptions are modelled with `Except PyErr`; a `try/except` that
  skips a row corresponds to an `Option`-valued row parser.
-/

deriving instance DecidableEq for Except

namespace NeuroVista

/-- Python exception kinds relevant to the embedded code. -/
inductive PyErr where
  | fileNotFound
  | indexError
  | valueError
  | keyError
deriving DecidableEq, Repr

/-- Outcome of one opaque external operation: it either returned normally or
raised an exception. -/
inductive Outcome where
  | ok
  | err
deriving DecidableEq, Repr

/-! ## Kernel-computable rational helpers

`Rat.add`, `Rat.mul`, … are `@[irreducible]` in this toolchain, so the
embedding uses `mkRat` and integer arithmetic directly; bridge lemmas relate
them to the standard field operations on `ℚ`. -/

/-- Addition of rationals via `mkRat` (kernel-computable). -/
def qAdd (a b : ℚ) : ℚ := mkRat (a.num * b.den + b.num * a.den) (a.den * b.den)

/-- Division of a rational by a natural number via `mkRat` (kernel-computable). -/
def qDivN (a : ℚ) (n : ℕ) : ℚ := mkRat a.num (a.den * n)

/-- Multiplication of a rational by 100 via `mkRat` (kernel-computable). -/
def qMul100 (a : ℚ) : ℚ := mkRat (a.num * 100) a.den

/-- Round a rational to the nearest integer, ties to even: the semantics of
Python 3 `round` on an exactly-representable value.  `q.num.fdiv q.den` is
`⌊q⌋` because `q.den > 0`. -/
def rhe (q : ℚ) : ℤ :=
  let f : ℤ := q.num.fdiv q.den
  let t : ℤ := 2 * (q.num - f * q.den)
  if t < q.den then f
  else if (q.den : ℤ) < t then f + 1
  else if f % 2 = 0 then f else f + 1

/-- Python `round(x, 2)`: round to 2 decimal places, ties to even.  (Python
rounds the binary double; the embedding idealises values as exact decimals,
which agrees with Python on every value arising in the claims.) -/
def round2 (q : ℚ) : ℚ := mkRat (rhe (qMul100 q)) 100

/-! ## The Flask entry point (`src/app.py`)

`run_script` (src/app.py:426-452) is the HTTP-facing entry point.  We embed
it as a pure function from the current busy flag and the request to the
response (status code and message), the busy flag after the call, and the
ordered trace of effects the handler performs. -/

/-- Characters kept by `sanitize_name` (src/app.py:43-49): `[A-Za-z0-9_-]`. -/
def keepChar (c : Char) : Bool :=
  (48 ≤ c.toNat && c.toNat ≤ 57) || (65 ≤ c.toNat && c.toNat ≤ 90) ||
  (97 ≤ c.toNat && c.toNat ≤ 122) || c = '_' || c = '-'

/-- `sanitize_name` (src/app.py:43-49): drop every character outside
`[A-Za-z0-9_-]`. -/
def sanitize_name (s : String) : String := ⟨s.data.filter keepChar⟩

/-- An uploaded-run request: form fields and the list of uploaded files. -/
structure RunRequest where
  study : String
  patient : String
  dicoms : List String
deriving DecidableEq, Repr

/-- Effects performed by the `run_script` handler, in program order.
`setBusy` is `processing_event.set()`, `runPipeline` is the (synchronous)
call to `run_processing`, `respond` is the construction of the HTTP
response that is returned to the client. -/
inductive AppEv where
  | setBusy
  | runPipeline
  | respond (code : ℕ) (msg : String)
deriving DecidableEq, Repr

/-- Result of the embedded `run_script`: HTTP status, message, the busy flag
after the handler returns, and the ordered effect trace. -/
structure ScriptResult where
  code : ℕ
  msg : String
  busyAfter : Bool
  events : List AppEv
deriving DecidableEq, Repr

/-- `run_script` (src/app.py:426-452).  The branches mirror the source:
busy check first (no filesystem access before it), then field validation,
then file validation; on the success path the handler sets the busy flag,
calls `run_processing` synchronously (which clears the flag in its
`finally`), and only then builds the `202` response. -/
def run_script (busy : Bool) (req : RunRequest) : ScriptResult :=
  if busy then
    { code := 400, msg := "Processing already in progress", busyAfter := busy
      events := [AppEv.respond 400 "Processing already in progress"] }
  else
    let study := sanitize_name req.study
    let patient := sanitize_name req.patient
    if study = "" || patient = "" then
      { code := 400, msg := "Study and patient name are required", busyAfter := busy
        events := [AppEv.respond 400 "Study and patient name are required"] }
    else if req.dicoms = [] then
      { code := 400, msg := "No DICOM files provided", busyAfter := busy
        events := [AppEv.respond 400 "No DICOM files provided"] }
    else
      { code := 202, msg := "Processing started", busyAfter := false
        events := [AppEv.setBusy, AppEv.runPipeline,
                   AppEv.respond 202 "Processing started"] }

/-- `ev₁` occurs strictly before `ev₂` in the trace. -/
def precedes (a b : AppEv) (evs : List AppEv) : Prop :=
  ∃ i j, i < j ∧ evs.get? i = some a ∧ evs.get? j = some b

/-! ## The orchestrator (`src/core/processing.py`)

`run_processing` (src/core/processing.py:209-297) sequences the stages.
External effects are opaque, so the embedding takes the outcome of each
underlying operation as input and computes the notification queue contents
and the list of stages whose `try` block was entered. -/

/-- `notify_step` (src/core/processing.py:36-40). -/
def notify_step (step : String) : String := step

/-- `notify_failure` (src/core/processing.py:42-47): prefixes `failed_`. -/
def notify_failure (step : String) : String := "failed_" ++ step

/-- `save_dicoms` (src/core/processing.py:49-73): the per-file loop catches
every exception and continues (`except` at line 71 does not re-raise), so
the call as a whole returns normally whatever the per-file outcomes were. -/
def save_dicoms_all (_fileResults : List Outcome) : Outcome :=
  Outcome.ok

/-- `convert_to_nifti` (src/core/processing.py:75-89): the per-folder loop
catches every conversion error and continues (`except` at line 87 does not
re-raise), so the call always returns normally. -/
def convert_to_nifti_all (_folderResults : List Outcome) : Outcome :=
  Outcome.ok

/-- `run_reconall` (src/core/processing.py:91-102) re-raises any exception
from the underlying recon-all workflow. -/
def run_reconall_outcome (reconResult : Outcome) : Outcome :=
  reconResult

/-- `process_lesions_for_all` (src/core/processing.py:114-120): the per-series
tasks are submitted through `ThreadPoolExecutor.map`, whose result is a lazy
iterator that the function never consumes.  An exception raised by
`process_lesions_for_series` (which does re-raise, line 112) is therefore
stored in its future and discarded; the call itself always returns normally,
regardless of the per-series outcomes. -/
def process_lesions_for_all (_seriesResults : List Outcome) : Outcome :=
  Outcome.ok

/-- `segment_subregions_for_all` (src/core/processing.py:122-132): the
per-structure `except` (line 130) logs and does not re-raise, so the call
always returns normally. -/
def segment_subregions_for_all (_results : List Outcome) : Outcome :=
  Outcome.ok

/-- `segment_hypothalamus_for_all` (src/core/processing.py:134-143): the
per-series `except` (line 141) logs and does not re-raise. -/
def segment_hypothalamus_for_all (_results : List Outcome) : Outcome :=
  Outcome.ok

/-- `generate_json_files` (src/core/processing.py:146-175) re-raises both
per-series and aggregation errors. -/
def generate_json_files_outcome (jsonResult : Outcome) : Outcome :=
  jsonResult

/-- `process_corestats_for_all` (src/core/processing.py:190-207): futures are
submitted and their results consumed through `as_completed`, and an exception
is re-raised (line 206), so the call fails iff some series failed. -/
def process_corestats_for_all (seriesResults : List Outcome) : Outcome :=
  if seriesResults.any (fun r => match r with | Outcome.err => true | _ => false)
  then Outcome.err else Outcome.ok

/-- Outcomes of the underlying operations of one pipeline run, per stage
(and per item for the stages that loop over files/series). -/
structure PipeInput where
  saveResults : List Outcome
  convertResults : List Outcome
  reconResult : Outcome
  lesionResults : List Outcome
  subsResults : List Outcome
  hypResults : List Outcome
  jsonResult : Outcome
  corestatsResults : List Outcome
deriving DecidableEq

/-- `run_processing` (src/core/processing.py:209-297): each stage runs in a
`try` block; on success the stage's tag is pushed onto the notification
queue, on failure `failed_<tag>` is pushed and the function returns.
Returns `(queue contents in order, stage tags whose try block was entered)`. -/
def run_processing (inp : PipeInput) : List String × List String :=
  match save_dicoms_all inp.saveResults with
  | Outcome.err => ([notify_failure "dicom"], ["dicom"])
  | Outcome.ok =>
  match convert_to_nifti_all inp.convertResults with
  | Outcome.err => ([notify_step "dicom", notify_failure "nifti"], ["dicom", "nifti"])
  | Outcome.ok =>
  match run_reconall_outcome inp.reconResult with
  | Outcome.err =>
      ([notify_step "dicom", notify_step "nifti", notify_failure "recon"],
       ["dicom", "nifti", "recon"])
  | Outcome.ok =>
  match process_lesions_for_all inp.lesionResults with
  | Outcome.err =>
      ([notify_step "dicom", notify_step "nifti", notify_step "recon",
        notify_failure "lesions"],
       ["dicom", "nifti", "recon", "lesions"])
  | Outcome.ok =>
  match segment_subregions_for_all inp.subsResults with
  | Outcome.err =>
      ([notify_step "dicom", notify_step "nifti", notify_step "recon",
        notify_step "lesions", notify_failure "subs"],
       ["dicom", "nifti", "recon", "lesions", "subs"])
  | Outcome.ok =>
  match segment_hypothalamus_for_all inp.hypResults with
  | Outcome.err =>
      ([notify_step "dicom", notify_step "nifti", notify_step "recon",
        notify_step "lesions", notify_step "subs", notify_failure "hyp"],
       ["dicom", "nifti", "recon", "lesions", "subs", "hyp"])
  | Outcome.ok =>
  match generate_json_files_outcome inp.jsonResult with
  | Outcome.err =>
      ([notify_step "dicom", notify_step "nifti", notify_step "recon",
        notify_step "lesions", notify_step "subs", notify_step "hyp",
        notify_failure "json"],
       ["dicom", "nifti", "recon", "lesions", "subs", "hyp", "json"])
  | Outcome.ok =>
  match process_corestats_for_all inp.corestatsResults with
  | Outcome.err =>
      ([notify_step "dicom", notify_step "nifti", notify_step "recon",
        notify_step "lesions", notify_step "subs", notify_step "hyp",
        notify_step "json", notify_failure "corestats"],
       ["dicom", "nifti", "recon", "lesions", "subs", "hyp", "json", "corestats"])
  | Outcome.ok =>
      ([notify_step "dicom", notify_step "nifti", notify_step "recon",
        notify_step "lesions", notify_step "subs", notify_step "hyp",
        notify_step "json", notify_step "corestats"],
       ["dicom", "nifti", "recon", "lesions", "subs", "hyp", "json", "corestats"])


/-! ## Character-level string helpers

Lean's `String` functions are not kernel-reducible here, so the embedding
works on `String.data : List Char`.  The helpers below implement the exact
Python semantics used by the sources: `str.split()` (split on whitespace
runs), `str.splitlines()`, `str.strip()`, `in` (substring containment),
`str.replace`, `float(...)` and `int(...)` on decimal literals. -/

/-- `needle` is a leading segment of `hay`. -/
def listLeads : List Char → List Char → Bool
  | [], _ => true
  | _ :: _, [] => false
  | a :: as, b :: bs => a = b && listLeads as bs

/-- Substring containment on character lists (Python `needle in hay`). -/
def containsCh (needle : List Char) : List Char → Bool
  | [] => needle.isEmpty
  | c :: t => listLeads needle (c :: t) || containsCh needle t

/-- Python `needle in hay` for strings. -/
def strContains (hay needle : String) : Bool := containsCh needle.data hay.data

/-- Helper of `replaceAllCh`, structurally recursive on a fuel bound (the
length of the remaining text bounds the number of steps, so the fuel never
runs out when initialised with it). -/
def replaceAllChAux (needle repl : List Char) : ℕ → List Char → List Char
  | 0, hay => hay
  | _ + 1, [] => []
  | fuel + 1, c :: t =>
    if needle ≠ [] ∧ listLeads needle (c :: t) = true then
      repl ++ replaceAllChAux needle repl fuel ((c :: t).drop needle.length)
    else
      c :: replaceAllChAux needle repl fuel t

/-- Python `hay.replace(needle, repl)`: replace every (non-overlapping,
leftmost-first) occurrence. -/
def replaceAllCh (needle repl hay : List Char) : List Char :=
  replaceAllChAux needle repl hay.length hay

/-- Python `s.replace(needle, repl)` for strings. -/
def replaceStr (s needle repl : String) : String :=
  ⟨replaceAllCh needle.data repl.data s.data⟩

/-- Python `str` whitespace (the characters `str.split()` and `str.strip()`
treat as separators; the unicode cases do not occur in the data files). -/
def pyIsSpace (c : Char) : Bool :=
  c = ' ' || c = '\t' || c = '\n' || c = '\r' || c.toNat = 11 || c.toNat = 12

/-- Python `s.strip()` on a character list. -/
def trimCh (cs : List Char) : List Char :=
  ((cs.dropWhile pyIsSpace).reverse.dropWhile pyIsSpace).reverse

/-- Python `s.split()` (no argument): split on runs of whitespace, no empty
tokens.  `cur` is the token accumulated so far. -/
def pySplitGo (cur : List Char) : List Char → List (List Char)
  | [] => if cur = [] then [] else [cur]
  | c :: t =>
    if pyIsSpace c then
      if cur = [] then pySplitGo [] t else cur :: pySplitGo [] t
    else pySplitGo (cur ++ [c]) t

/-- Python `s.split()` producing strings. -/
def pySplit (s : String) : List String := (pySplitGo [] s.data).map (fun cs => ⟨cs⟩)

/-- Helper of `splitLinesCh`: accumulate the current line, breaking at
`\r\n`, `\n` or `\r`. -/
def slGo (cur : List Char) : List Char → List (List Char)
  | [] => [cur]
  | '\r' :: '\n' :: t => cur :: slGo [] t
  | '\n' :: t => cur :: slGo [] t
  | '\r' :: t => cur :: slGo [] t
  | c :: t => slGo (cur ++ [c]) t

/-- Python `s.splitlines()`: line segments without terminators; a trailing
terminator does not produce a final empty line. -/
def splitLinesCh (cs : List Char) : List (List Char) :=
  let segs := slGo [] cs
  if segs.getLast? = some [] then segs.dropLast else segs

/-- Decimal digit test. -/
def isDigitCh (c : Char) : Bool := 48 ≤ c.toNat && c.toNat ≤ 57

/-- Value of a digit string (most significant first). -/
def digitsToNat (ds : List Char) : ℕ := ds.foldl (fun a c => 10 * a + (c.toNat - 48)) 0

/-- Optional sign at the start of a numeric literal. -/
def pfSign : List Char → ℤ × List Char
  | '+' :: t => (1, t)
  | '-' :: t => (-1, t)
  | cs => (1, cs)

/-- Exponent part of a Python float literal (after `e`/`E`): optional sign
followed by at least one digit, consuming the whole rest. -/
def pfExp (cs : List Char) : Option ℤ :=
  let (sg, cs1) := pfSign cs
  let ds := cs1.takeWhile isDigitCh
  let rest := cs1.dropWhile isDigitCh
  if ds = [] || rest ≠ [] then none else some (sg * (digitsToNat ds : ℤ))

/-- Mantissa value: `sign * (intPart ++ fracPart) / 10 ^ |fracPart|`. -/
def pfBase (sg : ℤ) (ip fp : List Char) : ℚ :=
  mkRat (sg * (digitsToNat (ip ++ fp) : ℤ)) (10 ^ fp.length)

/-- Scale a rational by `10 ^ e` (kernel-computable). -/
def qScale10 (q : ℚ) (e : ℤ) : ℚ :=
  if 0 ≤ e then mkRat (q.num * (10 ^ e.toNat : ℕ)) q.den
  else mkRat q.num (q.den * 10 ^ (-e).toNat)

/-- Finish parsing a float literal after the mantissa: either the end of the
string or an exponent part. -/
def pfFinish (sg : ℤ) (ip fp rest : List Char) : Option ℚ :=
  if ip = [] && fp = [] then none
  else
    match rest with
    | [] => some (pfBase sg ip fp)
    | 'e' :: t => (pfExp t).map (qScale10 (pfBase sg ip fp))
    | 'E' :: t => (pfExp t).map (qScale10 (pfBase sg ip fp))
    | _ => none

/-- Python `float(s)` on decimal literals: optional surrounding whitespace,
optional sign, digits with an optional fractional part, optional exponent.
(The special forms `inf`/`nan` and underscore grouping are accepted by
Python but never occur in the stats files and are not modelled.)
Returns `none` where Python raises `ValueError`. -/
def pyFloat? (s : String) : Option ℚ :=
  let cs := trimCh s.data
  let (sg, cs1) := pfSign cs
  let ip := cs1.takeWhile isDigitCh
  let cs2 := cs1.dropWhile isDigitCh
  match cs2 with
  | '.' :: t => pfFinish sg ip (t.takeWhile isDigitCh) (t.dropWhile isDigitCh)
  | _ => pfFinish sg ip [] cs2

/-- Python `int(s)`: optional surrounding whitespace, optional sign, at
least one digit, nothing else.  Returns `none` where Python raises
`ValueError` (in particular on `"3.0"`). -/
def pyInt? (s : String) : Option ℤ :=
  let cs := trimCh s.data
  let (sg, cs1) := pfSign cs
  let ds := cs1.takeWhile isDigitCh
  let rest := cs1.dropWhile isDigitCh
  if ds = [] || rest ≠ [] then none else some (sg * (digitsToNat ds : ℤ))

/-- Python `row[i]` on a token list: `IndexError` when out of range.
(The sources only use non-negative indices on these rows, except
`get_brainvol`, which is not needed by any claim.) -/
def idx (row : List String) (i : ℕ) : Except PyErr String :=
  match row.get? i with
  | some v => Except.ok v
  | none => Except.error PyErr.indexError

/-- Python `float(s)` as an `Except`: `ValueError` on failure. -/
def toFloatE (s : String) : Except PyErr ℚ :=
  match pyFloat? s with
  | some q => Except.ok q
  | none => Except.error PyErr.valueError

/-! ## The tabular file reader (`src/core/jsonifier.py`)

The filesystem is a map from path to file contents. -/

/-- A filesystem: `path ↦ contents` for existing files. -/
def FS : Type := String → Option String

/-- `pathlib` path join (`a / b`). -/
def pjoin (a b : String) : String := a ++ "/" ++ b

/-- Tokenised non-empty lines of a text: the value of
`[line.strip().split() for line in text.splitlines() if line.strip()]`. -/
def tokenizeLines (txt : String) : List (List String) :=
  ((splitLinesCh txt.data).filter (fun l => trimCh l ≠ [])).map
    (fun l => (pySplitGo [] (trimCh l)).map (fun cs => ⟨cs⟩))

/-- `read_volume_file` (src/core/jsonifier.py:29-48): raise
`FileNotFoundError` when the path does not exist, otherwise tokenize the
non-empty lines. -/
def read_volume_file (fs : FS) (file_path : String) : Except PyErr (List (List String)) :=
  match fs file_path with
  | none => Except.error PyErr.fileNotFound
  | some txt => Except.ok (tokenizeLines txt)

/-- `read_volume_file_skip` (src/core/jsonifier.py:51-66). -/
def read_volume_file_skip (fs : FS) (file_path : String) (skip : ℕ) :
    Except PyErr (List (List String)) :=
  (read_volume_file fs file_path).map (fun data => data.drop skip)

/-- Concrete filesystem used by witnesses: a single two-data-line file with
a blank line in the middle. -/
def exFS : FS := fun p => if p = "vol.txt" then some "Structure1 100.0\n\nStructure2 200.0\n" else none

/-! ## Step-Runner idempotency (`src/core/utils.py`)

Each stage function is embedded as the list of external-tool invocations it
performs, given the filesystem-existence oracle `ex`. -/

/-- One external tool invocation, with its arguments. -/
inductive Invocation where
  | samseg (inputFile outputDir : String)
  | segment (structureName subjectId subjectDir : String)
  | hypo (subjectId subjectDir : String)
  | reconAll (subjects : List String)
  | dicom2nifti (inputDir outputFile : String)
deriving DecidableEq, Repr

/-- Expected output files per structure in `segment_subregions`
(src/core/utils.py:299-316); the `.get(structure, [])` default gives `[]`
for an unknown structure. -/
def output_files (structureName subject_path : String) : List String :=
  if structureName = "thalamus" then
    [pjoin (pjoin subject_path "mri") "ThalamicNuclei.mgz",
     pjoin (pjoin subject_path "mri") "ThalamicNuclei.volumes.txt"]
  else if structureName = "brainstem" then
    [pjoin (pjoin subject_path "mri") "brainstemSsLabels.mgz",
     pjoin (pjoin subject_path "mri") "brainstemSsLabels.volumes.txt"]
  else if structureName = "hippo-amygdala" then
    [pjoin (pjoin subject_path "mri") "rh.amygNucVolumes.txt",
     pjoin (pjoin subject_path "mri") "rh.hippoSfVolumes.txt",
     pjoin (pjoin subject_path "mri") "lh.amygNucVolumes.txt",
     pjoin (pjoin subject_path "mri") "lh.hippoSfVolumes.txt",
     pjoin (pjoin subject_path "mri") "lh.hippoAmygLabels.mgz",
     pjoin (pjoin subject_path "mri") "rh.hippoAmygLabels.mgz"]
  else []

/-- `segment_subregions` (src/core/utils.py:280-330): run the external
`segment_subregions` command only when at least one expected output file is
missing.  (The Python parameter is named `structure`, a Lean keyword.) -/
def segment_subregions (ex : String → Bool) (structureName subject_id subject_dir : String) :
    List Invocation :=
  let subject_path := pjoin subject_dir subject_id
  let missing := (output_files structureName subject_path).filter (fun f => !(ex f))
  if missing = [] then []
  else [Invocation.segment structureName subject_id subject_dir]

/-- `process_lesions` (src/core/utils.py:245-277): skip when
`samseg.stats` already exists, otherwise invoke `run_samseg`. -/
def process_lesions (ex : String → Bool) (freesurfer_path samseg_path series : String) :
    List Invocation :=
  if ex (pjoin (pjoin samseg_path series) "samseg.stats") then []
  else [Invocation.samseg (pjoin (pjoin (pjoin freesurfer_path series) "mri") "brain.mgz")
          (pjoin samseg_path series)]

/-- `segment_hypothalamus` (src/core/utils.py:333-363): skip when the
output CSV already exists. -/
def segment_hypothalamus (ex : String → Bool) (subject_id subject_dir : String) :
    List Invocation :=
  if ex (pjoin (pjoin (pjoin subject_dir subject_id) "mri") "hypothalamic_subunits_volumes.v1.csv")
  then []
  else [Invocation.hypo subject_id subject_dir]

/-- Suffix test on character lists. -/
def endsWithCh (suffix cs : List Char) : Bool := listLeads suffix.reverse cs.reverse

/-- `pathlib.Path.stem` on a file name: the name without its final
extension (a lone leading dot is not an extension). -/
def stemCh (cs : List Char) : List Char :=
  let rcs := cs.reverse
  let after := rcs.takeWhile (fun c => c ≠ '.')
  if after.length = rcs.length then cs
  else
    let stem := (rcs.drop (after.length + 1)).reverse
    if stem = [] then cs else stem

/-- `remove_double_extension` (src/core/utils.py:112-128). -/
def remove_double_extension (name : String) : String :=
  if endsWithCh ".nii.gz".data name.data then ⟨name.data.take (name.data.length - 7)⟩
  else ⟨stemCh name.data⟩

/-- Key output files whose joint existence makes `reconall` treat a subject
as already processed (src/core/utils.py:195-201). -/
def key_files (subj_dir : String) : List String :=
  [pjoin (pjoin subj_dir "surf") "lh.white",
   pjoin (pjoin subj_dir "surf") "rh.white",
   pjoin (pjoin subj_dir "stats") "lh.aparc.stats",
   pjoin (pjoin subj_dir "stats") "rh.aparc.stats",
   pjoin (pjoin subj_dir "mri") "aparc+aseg.mgz"]

/-- The skip test of `reconall` for one subject: its FreeSurfer directory
exists and every key file exists (src/core/utils.py:192-206). -/
def subjectDone (ex : String → Bool) (fs_folder sid : String) : Bool :=
  ex (pjoin fs_folder sid) && (key_files (pjoin fs_folder sid)).all ex

/-- `reconall` (src/core/utils.py:155-242): return without invoking anything
when the NIFTI directory is missing, when it holds no `.nii.gz` files, or
when every subject is already processed; otherwise submit one ReconAll
workflow covering the unprocessed subjects.  `niftiNames` models the sorted
`*.nii.gz` file-name listing of the NIFTI directory. -/
def reconall (ex : String → Bool) (base_dir : String) (niftiNames : List String) :
    List Invocation :=
  if !(ex (pjoin base_dir "NIFTI")) then []
  else if niftiNames = [] then []
  else
    let fs_folder := pjoin base_dir "FREESURFER"
    let pairs := niftiNames.map (fun f => (remove_double_extension f, f))
    let toProcess := pairs.filter (fun p => !(subjectDone ex fs_folder p.1))
    if toProcess = [] then []
    else [Invocation.reconAll (toProcess.map (fun p => p.1))]

/-- `convert_to_nifti` (src/core/processing.py:75-89): one converter
invocation per DICOM series folder.  The function receives the filesystem
oracle but — unlike the other stages — never consults it for the output
file `<folder>.nii.gz`: there is no idempotency check in the source.
`folders` models `get_folder_names(dicom_directory)`. -/
def convert_to_nifti (_ex : String → Bool) (dicom_directory nifti_directory : String)
    (folders : List String) : List Invocation :=
  folders.map (fun folder =>
    Invocation.dicom2nifti (pjoin dicom_directory folder)
      (nifti_directory ++ "/" ++ folder ++ ".nii.gz"))


/-! ## Association lists and a stable insertion sort

Python `dict`s (insertion-ordered) are modelled as association lists;
`list.sort` (a stable sort) is modelled by a stable insertion sort that the
kernel can evaluate. -/

/-- First-match lookup in an association list (Python `d[k]` / `k in d`). -/
def alookup {α : Type} : List (String × α) → String → Option α
  | [], _ => none
  | (k, v) :: m, key => if k = key then some v else alookup m key

/-- Lexicographic comparison of character lists by code point (Python string
`<=`). -/
def lexLe : List Char → List Char → Bool
  | [], _ => true
  | _ :: _, [] => false
  | a :: as, b :: bs =>
    if a.toNat < b.toNat then true
    else if b.toNat < a.toNat then false
    else lexLe as bs

/-- Insert `a` after every element `b` of `l` with `le b a` (keeps equal
elements in their original order). -/
def insortBy {α : Type} (le : α → α → Bool) (a : α) : List α → List α
  | [] => [a]
  | b :: l => if le b a then b :: insortBy le a l else a :: b :: l

/-- Stable insertion sort: the result of Python's stable `list.sort`. -/
def stableSortBy {α : Type} (le : α → α → Bool) (l : List α) : List α :=
  l.foldl (fun acc a => insortBy le a acc) []

/-! ## Report records (`src/core/jsonifier.py`) -/

/-- A bilateral Volume Record: `{"Structure": …, "LHS Volume (mm3)": …,
"RHS Volume (mm3)": …}` where either side may be JSON `null` (Python
`None`). -/
structure BRec where
  sname : String
  lhs : Option ℚ
  rhs : Option ℚ
deriving DecidableEq, Repr

/-- A bilateral Volume Record from the paired-file parser, which always
fills both sides. -/
structure PairRec where
  sname : String
  lhs : ℚ
  rhs : ℚ
deriving DecidableEq, Repr

/-- A unilateral Volume Record: `{"Structure": …, "Volume (mm3)": …}`. -/
structure URec where
  sname : String
  vol : ℚ
deriving DecidableEq, Repr

/-- One record of `parse_dkt` (src/core/jsonifier.py:342-368). -/
structure DktRec where
  sname : String
  surfaceArea : ℤ
  grayVol : ℤ
  thickAvg : ℚ
  meanCurv : ℚ
deriving DecidableEq, Repr

/-- `get_volume` (src/core/jsonifier.py:11-26): first dictionary in the list
containing the name wins. -/
def get_volume (name : String) (nuclei : List (List (String × ℚ))) : Option ℚ :=
  nuclei.findSome? (fun d => alookup d name)

/-- Keys occurring in a list of dictionaries. -/
def keysOfDicts (nuclei : List (List (String × ℚ))) : List String :=
  nuclei.flatMap (fun d => d.map (fun kv => kv.1))

/-! ## Row parsers -/

/-- One row pair of `process_paired_volumes` (src/core/jsonifier.py:88-99):
`Structure` from the left row's token 0, both volumes parsed as floats and
rounded to 2 decimals; `IndexError`/`ValueError` anywhere skips the pair. -/
def pairRow (left_row right_row : List String) : Option PairRec :=
  match left_row.get? 0 with
  | none => none
  | some s =>
    match left_row.get? 1 with
    | none => none
    | some lt =>
      match pyFloat? lt with
      | none => none
      | some lq =>
        match right_row.get? 1 with
        | none => none
        | some rt =>
          match pyFloat? rt with
          | none => none
          | some rq => some ⟨s, round2 lq, round2 rq⟩

/-- `process_paired_volumes` (src/core/jsonifier.py:69-100) on the
tokenised rows of the two files: `zip` truncates to the shorter file. -/
def process_paired_volumes_rows (left_data right_data : List (List String)) : List PairRec :=
  (left_data.zip right_data).filterMap (fun p => pairRow p.1 p.2)

/-- `process_paired_volumes` including the file reads. -/
def process_paired_volumes (fs : FS) (left_file right_file : String) :
    Except PyErr (List PairRec) := do
  let left_data ← read_volume_file fs left_file
  let right_data ← read_volume_file fs right_file
  pure (process_paired_volumes_rows left_data right_data)

/-- One row of `process_brain_stem` (src/core/jsonifier.py:150-160). -/
def brainStemRow (row : List String) : Option URec :=
  match row.get? 0 with
  | none => none
  | some s =>
    match row.get? 1 with
    | none => none
    | some t =>
      match pyFloat? t with
      | none => none
      | some q => some ⟨s, round2 q⟩

/-- `process_brain_stem` (src/core/jsonifier.py:136-160) on tokenised rows. -/
def process_brain_stem_rows (rows : List (List String)) : List URec :=
  rows.filterMap brainStemRow

/-- Classification of one thalamus row (src/core/jsonifier.py:181-191):
a `Left`/`Right` row contributes a singleton dictionary (and, for `Left`,
a structure name); rows whose volume fails to parse, rows that are too
short and rows matching neither side are skipped. -/
inductive ThalClass where
  | leftRow (name : String) (q : ℚ)
  | rightRow (name : String) (q : ℚ)
  | skip
deriving DecidableEq

/-- Classify one row of `ThalamicNuclei.volumes.txt`. -/
def thalClassify (row : List String) : ThalClass :=
  match row.get? 0 with
  | none => ThalClass.skip
  | some h =>
    if strContains h "Left" then
      match row.get? 1 with
      | none => ThalClass.skip
      | some t =>
        match pyFloat? t with
        | none => ThalClass.skip
        | some q => ThalClass.leftRow (replaceStr h "Left-" "") (round2 q)
    else if strContains h "Right" then
      match row.get? 1 with
      | none => ThalClass.skip
      | some t =>
        match pyFloat? t with
        | none => ThalClass.skip
        | some q => ThalClass.rightRow (replaceStr h "Right-" "") (round2 q)
    else ThalClass.skip

/-- The single loop of `process_thalamus` (src/core/jsonifier.py:177-191):
accumulates `(lhs_nuclei, rhs_nuclei, structure_names)` in row order. -/
def thalamusScan : List (List String) →
    List (List (String × ℚ)) × List (List (String × ℚ)) × List String
  | [] => ([], [], [])
  | row :: rest =>
    let (l, r, ns) := thalamusScan rest
    match thalClassify row with
    | ThalClass.leftRow name q => ([(name, q)] :: l, r, name :: ns)
    | ThalClass.rightRow name q => (l, [(name, q)] :: r, ns)
    | ThalClass.skip => (l, r, ns)

/-- `process_thalamus` (src/core/jsonifier.py:163-196) on tokenised rows. -/
def process_thalamus_rows (rows : List (List String)) : List BRec :=
  let (lhs_nuclei, rhs_nuclei, structure_names) := thalamusScan rows
  structure_names.map (fun name =>
    ⟨name, get_volume name lhs_nuclei, get_volume name rhs_nuclei⟩)

/-- Structure names contributed by `Left` rows (in row order). -/
def thalLeftNames (rows : List (List String)) : List String :=
  rows.filterMap (fun row =>
    match thalClassify row with
    | ThalClass.leftRow name _ => some name
    | _ => none)

/-- Structure names contributed by `Right` rows (in row order). -/
def thalRightNames (rows : List (List String)) : List String :=
  rows.filterMap (fun row =>
    match thalClassify row with
    | ThalClass.rightRow name _ => some name
    | _ => none)

/-! ## Comprehension-style extractors (no per-row `try`)

`get_lesions`, the `aseg` comprehension of `get_general` and
`get_white_matter` build list comprehensions without row-level error
handling: an `IndexError`/`ValueError` in any row aborts the whole call.
`traverseFilter` models such a comprehension. -/

/-- Run a fallible row function over all rows; the first exception aborts,
rows mapped to `none` are filtered out. -/
def traverseFilter {α : Type} (f : List String → Except PyErr (Option α)) :
    List (List String) → Except PyErr (List α)
  | [] => Except.ok []
  | r :: rest =>
    match f r with
    | Except.error e => Except.error e
    | Except.ok o =>
      match traverseFilter f rest with
      | Except.error e => Except.error e
      | Except.ok acc =>
        Except.ok (match o with
          | some a => a :: acc
          | none => acc)

/-- One row of the hypointensities comprehension of `get_lesions`
(src/core/jsonifier.py:270-274): keep rows whose token 4 contains
`hypointensities`. -/
def hypoRow (row : List String) : Except PyErr (Option URec) :=
  match row.get? 4 with
  | none => Except.error PyErr.indexError
  | some s =>
    if strContains s "hypointensities" then
      match row.get? 3 with
      | none => Except.error PyErr.indexError
      | some t =>
        match pyFloat? t with
        | none => Except.error PyErr.valueError
        | some q => Except.ok (some ⟨s, q⟩)
    else Except.ok none

/-- One row of the lesions comprehension of `get_lesions`
(src/core/jsonifier.py:275-279): keep rows whose token 2 contains
`Lesions`; commas are stripped from name and value. -/
def lesionRow (row : List String) : Except PyErr (Option URec) :=
  match row.get? 2 with
  | none => Except.error PyErr.indexError
  | some s =>
    if strContains s "Lesions" then
      match row.get? 3 with
      | none => Except.error PyErr.indexError
      | some t =>
        match pyFloat? (replaceStr t "," "") with
        | none => Except.error PyErr.valueError
        | some q => Except.ok (some ⟨replaceStr s "," "", q⟩)
    else Except.ok none

/-- `get_lesions` (src/core/jsonifier.py:255-280) on the tokenised rows of
`aseg.stats` (after `skip=80`) and `samseg.stats`. -/
def get_lesions_rows (asegRows samsegRows : List (List String)) : Except PyErr (List URec) :=
  match traverseFilter hypoRow asegRows with
  | Except.error e => Except.error e
  | Except.ok hypointensities =>
    match traverseFilter lesionRow samsegRows with
    | Except.error e => Except.error e
    | Except.ok lesions => Except.ok (hypointensities ++ lesions)

/-- One row of the `aseg` comprehension of `get_general`
(src/core/jsonifier.py:407-411): keep rows whose token 4 does NOT contain
`hypointensities`; the volume `float(row[3])` is stored unrounded. -/
def asegRow (row : List String) : Except PyErr (Option URec) :=
  match row.get? 4 with
  | none => Except.error PyErr.indexError
  | some s =>
    if strContains s "hypointensities" then Except.ok none
    else
      match row.get? 3 with
      | none => Except.error PyErr.indexError
      | some t =>
        match pyFloat? t with
        | none => Except.error PyErr.valueError
        | some q => Except.ok (some ⟨s, q⟩)

/-- The `aseg` extraction of `get_general` on tokenised rows. -/
def get_general_aseg (rows : List (List String)) : Except PyErr (List URec) :=
  traverseFilter asegRow rows

/-- One side comprehension of `get_white_matter`
(src/core/jsonifier.py:324-331): keep rows whose token 4 contains `tag`,
producing a singleton dictionary keyed by the name with `replTag` removed. -/
def wmRowSide (tag replTag : String) (row : List String) :
    Except PyErr (Option (List (String × ℚ))) :=
  match row.get? 4 with
  | none => Except.error PyErr.indexError
  | some s =>
    if strContains s tag then
      match row.get? 3 with
      | none => Except.error PyErr.indexError
      | some t =>
        match pyFloat? t with
        | none => Except.error PyErr.valueError
        | some q => Except.ok (some [(replaceStr s replTag "", q)])
    else Except.ok none

/-- The names comprehension of `get_white_matter`
(src/core/jsonifier.py:332). -/
def wmNameRow (row : List String) : Except PyErr (Option String) :=
  match row.get? 4 with
  | none => Except.error PyErr.indexError
  | some s =>
    Except.ok (if strContains s "wm-lh" then some (replaceStr s "wm-lh-" "") else none)

/-- `get_white_matter` (src/core/jsonifier.py:309-339) on the tokenised
rows of `wmparc.stats` (after `skip=66`). -/
def get_white_matter_rows (wm_data : List (List String)) : Except PyErr (List BRec) :=
  match traverseFilter (wmRowSide "wm-lh" "wm-lh-") wm_data with
  | Except.error e => Except.error e
  | Except.ok wm_vol_lhs =>
    match traverseFilter (wmRowSide "wm-rh" "wm-rh-") wm_data with
    | Except.error e => Except.error e
    | Except.ok wm_vol_rhs =>
      match traverseFilter wmNameRow wm_data with
      | Except.error e => Except.error e
      | Except.ok names =>
        Except.ok (names.map (fun name =>
          ⟨name, get_volume name wm_vol_lhs, get_volume name wm_vol_rhs⟩))

/-- Names of the `wm-lh` rows (in row order). -/
def wmLeftNames (rows : List (List String)) : List String :=
  rows.filterMap (fun row =>
    (row.get? 4).bind (fun s =>
      if strContains s "wm-lh" then some (replaceStr s "wm-lh-" "") else none))

/-- Names of the `wm-rh` rows (in row order). -/
def wmRightNames (rows : List (List String)) : List String :=
  rows.filterMap (fun row =>
    (row.get? 4).bind (fun s =>
      if strContains s "wm-rh" then some (replaceStr s "wm-rh-" "") else none))

/-- One row of `parse_dkt` (src/core/jsonifier.py:357-367): tokens 0, 2, 3,
4, 6 as name, two ints and two floats; any failure skips the row. -/
def parseDktRow (fields : List String) : Option DktRec :=
  match fields.get? 0 with
  | none => none
  | some s =>
    match (fields.get? 2).bind pyInt? with
    | none => none
    | some sa =>
      match (fields.get? 3).bind pyInt? with
      | none => none
      | some gv =>
        match (fields.get? 4).bind pyFloat? with
        | none => none
        | some ta =>
          match (fields.get? 6).bind pyFloat? with
          | none => none
          | some mc => some ⟨s, sa, gv, ta, mc⟩

/-- `parse_dkt` (src/core/jsonifier.py:342-368) on tokenised rows (after
`skip=61`). -/
def parse_dkt_rows (rows : List (List String)) : List DktRec :=
  rows.filterMap parseDktRow

/-- A DKT row is well formed when all five extracted tokens exist and
parse. -/
def wfDkt (fields : List String) : Bool :=
  (fields.get? 0).isSome && ((fields.get? 2).bind pyInt?).isSome &&
  ((fields.get? 3).bind pyInt?).isSome && ((fields.get? 4).bind pyFloat?).isSome &&
  ((fields.get? 6).bind pyFloat?).isSome

/-! ## Hypothalamus CSV parser (`src/core/jsonifier.py:199-229`)

`pd.read_csv(...).to_dict(orient="records")[0]` yields one ordered
key→value record; the embedding takes that record as input. -/

/-- Python `dict.pop(k, None)` / `del`: drop the key. -/
def aRemove {α : Type} (m : List (String × α)) (k : String) : List (String × α) :=
  m.filter (fun kv => kv.1 ≠ k)

/-- Python `d[k] = v`: update in place when present, else append. -/
def aSet {α : Type} (m : List (String × α)) (k : String) (v : α) : List (String × α) :=
  if (alookup m k).isSome then
    m.map (fun kv => if kv.1 = k then (kv.1, v) else kv)
  else m ++ [(k, v)]

/-- The key-renaming part of `process_hypothalamus`
(src/core/jsonifier.py:214-219): drop `subject`, move `whole left` to
`left whole` and `whole right` to `right whole` (at the end, as Python dict
assignment appends fresh keys); a missing `whole left`/`whole right` key is
a `KeyError`. -/
def hyp_renamed (records0 : List (String × ℚ)) : Except PyErr (List (String × ℚ)) :=
  let records1 := aRemove records0 "subject"
  match alookup records1 "whole left" with
  | none => Except.error PyErr.keyError
  | some wl =>
    let records2 := aSet (aRemove records1 "whole left") "left whole" wl
    match alookup records2 "whole right" with
    | none => Except.error PyErr.keyError
    | some wr =>
      Except.ok (aSet (aRemove records2 "whole right") "right whole" wr)

/-- Keys of the renamed record containing `left`, with the `left ` marker
removed (src/core/jsonifier.py:221-223). -/
def hypLeftNames (m : List (String × ℚ)) : List String :=
  m.filterMap (fun kv =>
    if strContains kv.1 "left" then some (replaceStr kv.1 "left " "") else none)

/-- Keys of the renamed record containing `right`, with the `right ` marker
removed. -/
def hypRightNames (m : List (String × ℚ)) : List String :=
  m.filterMap (fun kv =>
    if strContains kv.1 "right" then some (replaceStr kv.1 "right " "") else none)

/-- `process_hypothalamus` (src/core/jsonifier.py:199-229) on the CSV
record. -/
def process_hypothalamus_rec (records0 : List (String × ℚ)) : Except PyErr (List BRec) :=
  match hyp_renamed records0 with
  | Except.error e => Except.error e
  | Except.ok records =>
    let lhs := records.filterMap (fun kv =>
      if strContains kv.1 "left" then some [(replaceStr kv.1 "left " "", kv.2)] else none)
    let rhs := records.filterMap (fun kv =>
      if strContains kv.1 "right" then some [(replaceStr kv.1 "right " "", kv.2)] else none)
    let names := hypLeftNames records
    Except.ok (names.map (fun name => ⟨name, get_volume name lhs, get_volume name rhs⟩))

/-! ## The cross-subject aggregator (`run_json_average`,
src/core/jsonifier.py:456-531)

A loaded JSON Report Document is an ordered map from sub-key to a list of
entries; an entry's `Structure` key (always a string when present) is
modelled separately from its remaining fields.  The accumulation loop
(lines 487-506) maintains two parallel insertion-ordered dicts
`cumulative_data` and `counts`; the averaging loop (lines 508-520) divides,
rounds and sorts. -/

/-- A JSON value as far as the aggregator cares: numbers are summed
(line 503), anything else is warned about and skipped. -/
inductive JVal where
  | num (q : ℚ)
  | str (s : String)
  | null
deriving DecidableEq, Repr

/-- One entry of a Report Document: the value of its `Structure` key (if
present) and the remaining key→value pairs in insertion order. -/
structure JEntry where
  sname : Option String
  fields : List (String × JVal)
deriving DecidableEq, Repr

/-- A loaded Report Document: sub-key → entries, in insertion order. -/
abbrev Doc : Type := List (String × List JEntry)

/-- `entry.get("Structure")` followed by the falsiness test (line 492-495):
a missing or empty name skips the entry. -/
def truthyName (e : JEntry) : Option String :=
  match e.sname with
  | some s => if s = "" then none else some s
  | none => none

/-- The `cumulative_data` dict: `top_key → structure → field → running sum`. -/
abbrev CumMap : Type := List (String × List (String × List (String × ℚ)))

/-- The `counts` dict: `top_key → structure → count`. -/
abbrev CntMap : Type := List (String × List (String × ℕ))

/-- Aggregator state: the two parallel dicts. -/
abbrev CState : Type := CumMap × CntMap

/-- Update the value at the first occurrence of a key (Python in-place dict
update); no-op when the key is absent. -/
def updateAt {α : Type} : List (String × α) → String → (α → α) → List (String × α)
  | [], _, _ => []
  | (k', v) :: rest, k, f =>
    if k' = k then (k', f v) :: rest else (k', v) :: updateAt rest k f

/-- `defaultdict(float)` update `tot[k] += v`: add to the entry when
present, else append `(k, 0.0 + v)`. -/
def dictAddTo : List (String × ℚ) → String → ℚ → List (String × ℚ)
  | [], k, v => [(k, qAdd 0 v)]
  | (k', v') :: rest, k, v =>
    if k' = k then (k', qAdd v' v) :: rest else (k', v') :: dictAddTo rest k v

/-- The inner field loop (lines 500-506): add each numeric field value into
the totals dict, skip non-numeric values. -/
def addFieldsTotals (tot : List (String × ℚ)) (fields : List (String × JVal)) :
    List (String × ℚ) :=
  fields.foldl
    (fun tot kv =>
      match kv.2 with
      | JVal.num q => dictAddTo tot kv.1 q
      | _ => tot) tot

/-- Lines 488-490: make sure `top_key` is present in both dicts. -/
def ensureTop (st : CState) (top : String) : CState :=
  (if (alookup st.1 top).isSome then st.1 else st.1 ++ [(top, [])],
   if (alookup st.2 top).isSome then st.2 else st.2 ++ [(top, [])])

/-- Lines 491-506: process one entry under `top`.  A falsy `Structure`
skips the entry; otherwise the structure is created in both dicts if
needed, its count is bumped, and its numeric fields are summed. -/
def accEntry (top : String) (st : CState) (e : JEntry) : CState :=
  match truthyName e with
  | none => st
  | some s =>
    let cum1 := if (alookup ((alookup st.1 top).getD []) s).isSome then st.1
                else updateAt st.1 top (fun m => m ++ [(s, [])])
    let cnt1 := if (alookup ((alookup st.2 top).getD []) s).isSome then st.2
                else updateAt st.2 top (fun m => m ++ [(s, 0)])
    let cnt2 := updateAt cnt1 top (fun m => updateAt m s (fun c => c + 1))
    let cum2 := updateAt cum1 top (fun m =>
      updateAt m s (fun tot => addFieldsTotals tot e.fields))
    (cum2, cnt2)

/-- One `(top_key, entries)` pair of one document (lines 487-506). -/
def accPair (st : CState) (p : String × List JEntry) : CState :=
  p.2.foldl (accEntry p.1) (ensureTop st p.1)

/-- The `(top_key, entries)` pairs of all successfully loaded documents, in
processing order (missing or undecodable files are `none` and skipped,
lines 476-485). -/
def pairsOf (files : List (Option Doc)) : List (String × List JEntry) :=
  (files.filterMap id).flatMap (fun d => d)

/-- One record of the averaged output. -/
structure AvgEntry where
  sname : String
  afields : List (String × ℚ)
deriving DecidableEq, Repr

/-- `counts[top_key][structure]` (guaranteed present when read by the
source; `0` stands for the impossible missing case). -/
def countAt (cnt : CntMap) (top s : String) : ℕ :=
  ((alookup cnt top).bind (fun m => alookup m s)).getD 0

/-- The averaging loop (lines 508-520): divide each total by the count,
round to 2 decimals, and sort each sub-key's records by structure name
(Python's stable sort). -/
def averageResult (st : CState) : List (String × List AvgEntry) :=
  st.1.map (fun p =>
    (p.1,
     stableSortBy (fun a b => lexLe a.sname.data b.sname.data)
       (p.2.filterMap (fun q =>
         let c := countAt st.2 p.1 q.1
         if c = 0 then none
         else some ⟨q.1, q.2.map (fun kv => (kv.1, round2 (qDivN kv.2 c)))⟩))))

/-- `run_json_average` (src/core/jsonifier.py:456-531) on the loaded
documents: accumulate, then average. -/
def run_json_average (files : List (Option Doc)) : List (String × List AvgEntry) :=
  averageResult ((pairsOf files).foldl accPair ([], []))

/-! ### Specification-side quantities for the aggregation claim -/

/-- Number of entries bearing structure `s` under sub-key `top` across a
pair list. -/
def countPairs (ps : List (String × List JEntry)) (top s : String) : ℕ :=
  (ps.map (fun p =>
    if p.1 = top then p.2.countP (fun e => truthyName e = some s) else 0)).sum

/-- Numeric values of field `k` in an entry's fields, in order. -/
def numValuesOf (fields : List (String × JVal)) (k : String) : List ℚ :=
  fields.filterMap (fun kv =>
    if kv.1 = k then
      match kv.2 with
      | JVal.num q => some q
      | _ => none
    else none)

/-- All numeric values of field `k` over entries bearing structure `s`
under sub-key `top`, in processing order. -/
def fieldVsPairs (ps : List (String × List JEntry)) (top s k : String) : List ℚ :=
  ps.flatMap (fun p =>
    if p.1 = top then
      p.2.flatMap (fun e => if truthyName e = some s then numValuesOf e.fields k else [])
    else [])

/-- `countPairs` over the loaded documents: the number of entries bearing
structure `s` under sub-key `top`. -/
def countEntries (files : List (Option Doc)) (top s : String) : ℕ :=
  countPairs (pairsOf files) top s

/-- Numeric values of field `k` for `(top, s)` over the loaded documents. -/
def fieldValues (files : List (Option Doc)) (top s k : String) : List ℚ :=
  fieldVsPairs (pairsOf files) top s k

/-- The accumulated sum of field `k` for `(top, s)`. -/
def sumField (files : List (Option Doc)) (top s k : String) : ℚ :=
  (fieldValues files top s k).foldl qAdd 0

/-- Sum of a value list, `none` when there were no values (the shape of a
`defaultdict` entry that was never touched). -/
def optSum (vs : List ℚ) : Option ℚ :=
  match vs with
  | [] => none
  | _ => some (vs.foldl qAdd 0)

/-- Append values to an optional running sum. -/
def optAcc (t : Option ℚ) (vs : List ℚ) : Option ℚ :=
  match vs with
  | [] => t
  | _ => some (vs.foldl qAdd (t.getD 0))

/-- Ensure key `s` exists in a dict with default `d` (the shape shared by
lines 488-490 and 496-498 of the source). -/
def mEnsure {α : Type} (m : List (String × α)) (s : String) (d : α) : List (String × α) :=
  if (alookup m s).isSome then m else m ++ [(s, d)]

/-- All numeric values of field `k` over a list of entries bearing
structure `s`, in order. -/
def entriesFieldVs (entries : List JEntry) (s k : String) : List ℚ :=
  entries.flatMap (fun e => if truthyName e = some s then numValuesOf e.fields k else [])

/-- `counts[top][s]` of a state. -/
def countOf (st : CState) (top s : String) : ℕ := countAt st.2 top s

/-- `cumulative_data[top][s][k]` of a state. -/
def totalOf (st : CState) (top s k : String) : Option ℚ :=
  (((alookup st.1 top).bind (fun m => alookup m s)).bind (fun tot => alookup tot k))

/-- Whether structure `s` exists under `top` in `cumulative_data`. -/
def structPresent (st : CState) (top s : String) : Bool :=
  ((alookup st.1 top).bind (fun m => alookup m s)).isSome

/-- First example document of the aggregation claim: hippocampus `CA1`
volumes 100 (LHS) and 200 (RHS). -/
def exDoc1 : Doc :=
  [("hippocampus",
    [⟨some "CA1", [("LHS Volume (mm3)", JVal.num 100), ("RHS Volume (mm3)", JVal.num 200)]⟩])]

/-- Second example document: `CA1` volumes 110 (LHS) and 220 (RHS). -/
def exDoc2 : Doc :=
  [("hippocampus",
    [⟨some "CA1", [("LHS Volume (mm3)", JVal.num 110), ("RHS Volume (mm3)", JVal.num 220)]⟩])]

/-- Single-series document whose CA1 volumes are the parsed value of
`123.456` (= 123.46 after parse-time rounding). -/
def exC4Doc : Doc :=
  [("hippocampus",
    [⟨some "CA1", [("LHS Volume (mm3)", JVal.num (mkRat 12346 100)),
                   ("RHS Volume (mm3)", JVal.num (mkRat 12346 100))]⟩])]


/-- A pipeline run in which `process_lesions` raises for the single series
and every other underlying operation succeeds. -/
def lesionFailureInput : PipeInput :=
  { saveResults := [Outcome.ok]
    convertResults := [Outcome.ok]
    reconResult := Outcome.ok
    lesionResults := [Outcome.err]
    subsResults := [Outcome.ok]
    hypResults := [Outcome.ok]
    jsonResult := Outcome.ok
    corestatsResults := [Outcome.ok] }

end NeuroVista

namespace NeuroVista

/-- C1: if the lesion-segmentation stage throws for a series, the pipeline is
claimed to stop before the subregion stage and emit `failed_lesions`.  The
code does not do this: evaluating the embedded `run_processing` on a run
where `process_lesions` raises for its only series shows that the success
tag `lesions` is emitted, `failed_lesions` is never emitted, and the
subregion-segmentation stage (`subs`) is entered — the exception is lost in
the unconsumed `ThreadPoolExecutor.map` iterator. -/
theorem C1_lesion_failure_not_fail_fast :
    run_processing lesionFailureInput =
      (["dicom", "nifti", "recon", "lesions", "subs", "hyp", "json", "corestats"],
       ["dicom", "nifti", "recon", "lesions", "subs", "hyp", "json", "corestats"]) ∧
    "failed_lesions" ∉ (run_processing lesionFailureInput).1 ∧
    "subs" ∈ (run_processing lesionFailureInput).2 := by
  refine ⟨rfl, ?_, ?_⟩ <;> decide

/-- C6: if the busy flag is set when a run request arrives, `run_script`
rejects it with a client error (400), performs no effect other than building
the response (no folder creation, no file write, no stage start), and leaves
the busy flag set. -/
theorem C6_busy_request_rejected (req : RunRequest) :
    run_script true req =
      { code := 400, msg := "Processing already in progress", busyAfter := true
        events := [AppEv.respond 400 "Processing already in progress"] } := by
  rfl

/-- C8 counterexample: for a concrete valid request arriving while idle, the
embedded `run_script` trace is `[setBusy, runPipeline, respond 202 …]`: the
pipeline runs to completion synchronously before the `202 Processing
started` response is built, so the response is not sent before the pipeline
work — the claimed background execution does not happen. -/
theorem C8_response_waits_for_pipeline :
    (run_script false { study := "s1", patient := "p1", dicoms := ["a.dcm"] }).events =
      [AppEv.setBusy, AppEv.runPipeline, AppEv.respond 202 "Processing started"] ∧
    ¬ precedes (AppEv.respond 202 "Processing started") AppEv.runPipeline
        (run_script false { study := "s1", patient := "p1", dicoms := ["a.dcm"] }).events := by
  constructor
  · rfl
  · rintro ⟨i, j, hij, hi, hj⟩
    have hevs : (run_script false { study := "s1", patient := "p1", dicoms := ["a.dcm"] }).events =
        [AppEv.setBusy, AppEv.runPipeline, AppEv.respond 202 "Processing started"] := rfl
    rw [hevs] at hi hj
    have hi2 : i = 2 := by
      match i, hi with
      | 0, h => exact absurd h (by decide)
      | 1, h => exact absurd h (by decide)
      | 2, _ => rfl
      | n + 3, h => exact Option.noConfusion h
    have hj1 : j = 1 := by
      match j, hj with
      | 0, h => exact absurd h (by decide)
      | 1, _ => rfl
      | 2, h => exact absurd h (by decide)
      | n + 3, h => exact Option.noConfusion h
    omega

/-- C8 amended: a run request that passes admission and input validation does
receive a `202 Processing started` acknowledgment, but only after
`run_processing` has run to completion synchronously inside the request
handler: the trace sets the busy flag, runs the whole pipeline, and builds
the response last. -/
theorem C8_synchronous_ack (req : RunRequest)
    (hStudy : sanitize_name req.study ≠ "")
    (hPatient : sanitize_name req.patient ≠ "")
    (hFiles : req.dicoms ≠ []) :
    run_script false req =
      { code := 202, msg := "Processing started", busyAfter := false
        events := [AppEv.setBusy, AppEv.runPipeline,
                   AppEv.respond 202 "Processing started"] } := by
  unfold run_script
  simp only [if_neg (by simp : ¬ (false = true))]
  rw [if_neg, if_neg hFiles]
  simp [hStudy, hPatient]

/-- Witness for `C8_synchronous_ack` at a concrete request. -/
theorem C8_synchronous_ack_witness :
    run_script false { study := "s1", patient := "p1", dicoms := ["a.dcm"] } =
      { code := 202, msg := "Processing started", busyAfter := false
        events := [AppEv.setBusy, AppEv.runPipeline,
                   AppEv.respond 202 "Processing started"] } :=
  C8_synchronous_ack { study := "s1", patient := "p1", dicoms := ["a.dcm"] }
    (by decide) (by decide) (by decide)

/-- C7: the tabular file reader raises a file-not-found error iff the path
does not exist; when the file exists it returns the whitespace-tokenized
non-empty lines and does not raise. -/
theorem C7_reader_contract (fs : FS) (p : String) :
    ((∃ e, read_volume_file fs p = Except.error e) ↔ fs p = none) ∧
    (∀ txt, fs p = some txt → read_volume_file fs p = Except.ok (tokenizeLines txt)) := by
  constructor
  · constructor
    · rintro ⟨e, he⟩
      cases hfp : fs p with
      | none => rfl
      | some txt =>
        unfold read_volume_file at he
        rw [hfp] at he
        exact Except.noConfusion he
    · intro h
      refine ⟨PyErr.fileNotFound, ?_⟩
      unfold read_volume_file
      rw [h]
  · intro txt h
    unfold read_volume_file
    rw [h]

/-- Witness for `C7_reader_contract`: a concrete file with a blank line in
the middle tokenizes into its two non-empty lines; a missing path raises. -/
theorem C7_reader_contract_witness :
    read_volume_file exFS "vol.txt" =
      Except.ok [["Structure1", "100.0"], ["Structure2", "200.0"]] ∧
    (∃ e, read_volume_file exFS "missing.txt" = Except.error e) := by
  constructor
  · exact ((C7_reader_contract exFS "vol.txt").2 _ rfl).trans (by decide)
  · exact (C7_reader_contract exFS "missing.txt").1.mpr rfl

/-- C2 counterexample: the NIfTI-conversion stage has no idempotency check.
With a filesystem oracle on which every path — in particular the output
`DATA/NIFTI/SeriesA.nii.gz` — exists, converting the single series still
performs one external converter invocation instead of zero. -/
theorem C2_conversion_reruns :
    convert_to_nifti (fun _ => true) "DATA/DICOM" "DATA/NIFTI" ["SeriesA"] =
      [Invocation.dicom2nifti "DATA/DICOM/SeriesA" "DATA/NIFTI/SeriesA.nii.gz"] ∧
    convert_to_nifti (fun _ => true) "DATA/DICOM" "DATA/NIFTI" ["SeriesA"] ≠ [] := by
  exact ⟨rfl, by decide⟩

/-- C2 amended: the lesion, subregion, hypothalamus and reconstruction
stages perform zero external-tool invocations when all of their expected
output files already exist, but the NIfTI-conversion stage invokes the
converter once per series regardless of the filesystem state. -/
theorem C2_skip_when_outputs_exist (ex : String → Bool) :
    (∀ structureName subject_id subject_dir,
        (∀ f ∈ output_files structureName (pjoin subject_dir subject_id), ex f = true) →
        segment_subregions ex structureName subject_id subject_dir = []) ∧
    (∀ freesurfer_path samseg_path series,
        ex (pjoin (pjoin samseg_path series) "samseg.stats") = true →
        process_lesions ex freesurfer_path samseg_path series = []) ∧
    (∀ subject_id subject_dir,
        ex (pjoin (pjoin (pjoin subject_dir subject_id) "mri")
             "hypothalamic_subunits_volumes.v1.csv") = true →
        segment_hypothalamus ex subject_id subject_dir = []) ∧
    (∀ base_dir niftiNames,
        (∀ f ∈ niftiNames,
            subjectDone ex (pjoin base_dir "FREESURFER") (remove_double_extension f) = true) →
        reconall ex base_dir niftiNames = []) ∧
    (∀ dicom_directory nifti_directory folders,
        (convert_to_nifti ex dicom_directory nifti_directory folders).length =
          folders.length) := by
  refine ⟨?_, ?_, ?_, ?_, ?_⟩
  · intro sn sid sdir hall
    unfold segment_subregions
    have hnil : (output_files sn (pjoin sdir sid)).filter (fun f => !(ex f)) = [] := by
      apply List.filter_eq_nil_iff.mpr
      intro a ha
      simp [hall a ha]
    simp [hnil]
  · intro fsp samp series h
    unfold process_lesions
    simp [h]
  · intro sid sdir h
    unfold segment_hypothalamus
    simp [h]
  · intro base names hall
    unfold reconall
    by_cases h1 : ex (pjoin base "NIFTI")
    · by_cases h2 : names = []
      · simp [h1, h2]
      · have hnil :
            (names.map (fun f => (remove_double_extension f, f))).filter
              (fun p => !(subjectDone ex (pjoin base "FREESURFER") p.1)) = [] := by
          apply List.filter_eq_nil_iff.mpr
          intro a ha
          obtain ⟨f, hf, rfl⟩ := List.mem_map.mp ha
          simp [hall f hf]
        simp [h1, h2, hnil]
    · simp [h1]
  · intro dd nd folders
    unfold convert_to_nifti
    simp

/-- Witness for `C2_skip_when_outputs_exist` on the everything-exists
oracle at concrete arguments. -/
theorem C2_skip_when_outputs_exist_witness :
    segment_subregions (fun _ => true) "thalamus" "s1" "FS" = [] ∧
    process_lesions (fun _ => true) "FS" "SAM" "s1" = [] ∧
    segment_hypothalamus (fun _ => true) "s1" "FS" = [] ∧
    reconall (fun _ => true) "BASE" ["s1.nii.gz"] = [] ∧
    (convert_to_nifti (fun _ => true) "D" "N" ["s1"]).length = 1 := by
  refine ⟨?_, ?_, ?_, ?_, ?_⟩
  · exact (C2_skip_when_outputs_exist (fun _ => true)).1 "thalamus" "s1" "FS" (by decide)
  · exact (C2_skip_when_outputs_exist (fun _ => true)).2.1 "FS" "SAM" "s1" (by decide)
  · exact (C2_skip_when_outputs_exist (fun _ => true)).2.2.1 "s1" "FS" (by decide)
  · exact (C2_skip_when_outputs_exist (fun _ => true)).2.2.2.1 "BASE" ["s1.nii.gz"]
      (by decide)
  · exact (C2_skip_when_outputs_exist (fun _ => true)).2.2.2.2 "D" "N" ["s1"]

end NeuroVista
namespace NeuroVista

/-! ### Rounding lemmas -/

theorem qMul100_eq (q : ℚ) : qMul100 q = q * 100 := by
  unfold qMul100
  rw [Rat.mkRat_eq_div]
  have h : ((q.num * 100 : ℤ) : ℚ) / (q.den : ℚ) = ((q.num : ℚ) / (q.den : ℚ)) * 100 := by
    push_cast
    ring
  rw [h, Rat.num_div_den]

theorem rhe_int (n : ℤ) : rhe ((n : ℤ) : ℚ) = n := by
  unfold rhe
  rw [Rat.intCast_num, Rat.intCast_den]
  have h1 : (n : ℤ).fdiv (((1 : ℕ) : ℤ)) = n := by
    rw [show ((1 : ℕ) : ℤ) = 1 by norm_num, Int.fdiv_eq_ediv _ (by norm_num), Int.ediv_one]
  rw [h1]
  simp

theorem round2_mkRat100 (m : ℤ) : round2 (mkRat m 100) = mkRat m 100 := by
  unfold round2
  have h : qMul100 (mkRat m 100) = ((m : ℤ) : ℚ) := by
    rw [qMul100_eq, Rat.mkRat_eq_div]
    push_cast
    field_simp
  rw [h, rhe_int]

theorem round2_idem (q : ℚ) : round2 (round2 q) = round2 q :=
  round2_mkRat100 (rhe (qMul100 q))

theorem pairRow_rounded (lr rr : List String) (e : PairRec) (h : pairRow lr rr = some e) :
    round2 e.lhs = e.lhs ∧ round2 e.rhs = e.rhs := by
  unfold pairRow at h
  cases h0 : lr.get? 0 with
  | none => simp only [h0] at h; exact Option.noConfusion h
  | some s =>
    simp only [h0] at h
    cases h1 : lr.get? 1 with
    | none => simp only [h1] at h; exact Option.noConfusion h
    | some lt =>
      simp only [h1] at h
      cases h2 : pyFloat? lt with
      | none => simp only [h2] at h; exact Option.noConfusion h
      | some lq =>
        simp only [h2] at h
        cases h3 : rr.get? 1 with
        | none => simp only [h3] at h; exact Option.noConfusion h
        | some rt =>
          simp only [h3] at h
          cases h4 : pyFloat? rt with
          | none => simp only [h4] at h; exact Option.noConfusion h
          | some rq =>
            simp only [h4] at h
            cases h
            exact ⟨round2_idem _, round2_idem _⟩

end NeuroVista
namespace NeuroVista

/-- C4 counterexample: the `aseg` extraction of `get_general` stores
`float(row[3])` without rounding: input volume `123.456` is written to the
per-series Report Document as `123.456`, which is not a 2-decimal value. -/
theorem C4_aseg_not_rounded :
    get_general_aseg [["x", "x", "x", "123.456", "Left-Thalamus"]] =
      Except.ok [⟨"Left-Thalamus", mkRat 123456 1000⟩] ∧
    round2 (mkRat 123456 1000) ≠ mkRat 123456 1000 := by
  constructor
  · decide
  · decide

/-- C4 amended: the paired-file parsers round every volume to 2 decimals at
parsing (every emitted value is a fixed point of `round2`), and the input
volume `123.456` appears as exactly `123.46` in the per-subject paired
record and in the averaged document; the `aseg`/lesion/white-matter
extractors, by contrast, store their volumes unrounded. -/
theorem C4_paired_rounding (left_data right_data : List (List String)) :
    (∀ e ∈ process_paired_volumes_rows left_data right_data,
        round2 e.lhs = e.lhs ∧ round2 e.rhs = e.rhs) ∧
    process_paired_volumes_rows [["CA1", "123.456"]] [["CA1", "123.456"]] =
      [⟨"CA1", mkRat 12346 100, mkRat 12346 100⟩] ∧
    run_json_average [some exC4Doc] =
      [("hippocampus",
        [⟨"CA1", [("LHS Volume (mm3)", mkRat 12346 100),
                  ("RHS Volume (mm3)", mkRat 12346 100)]⟩])] := by
  refine ⟨?_, by decide, by decide⟩
  intro e he
  obtain ⟨p, _, hp⟩ := List.mem_filterMap.mp he
  exact pairRow_rounded p.1 p.2 e hp

/-- Witness for `C4_paired_rounding`: the record parsed from `123.456` has
both volumes equal to their own 2-decimal rounding. -/
theorem C4_paired_rounding_witness :
    round2 (PairRec.lhs ⟨"CA1", mkRat 12346 100, mkRat 12346 100⟩) =
      PairRec.lhs ⟨"CA1", mkRat 12346 100, mkRat 12346 100⟩ ∧
    round2 (PairRec.rhs ⟨"CA1", mkRat 12346 100, mkRat 12346 100⟩) =
      PairRec.rhs ⟨"CA1", mkRat 12346 100, mkRat 12346 100⟩ :=
  (C4_paired_rounding [["CA1", "123.456"]] [["CA1", "123.456"]]).1
    ⟨"CA1", mkRat 12346 100, mkRat 12346 100⟩ (by decide)

/-! ### Row tolerance (C5) -/

theorem parseDktRow_isSome (fields : List String) :
    (parseDktRow fields).isSome = wfDkt fields := by
  unfold parseDktRow wfDkt
  cases fields.get? 0 <;>
    cases (fields.get? 2).bind pyInt? <;>
    cases (fields.get? 3).bind pyInt? <;>
    cases (fields.get? 4).bind pyFloat? <;>
    cases (fields.get? 6).bind pyFloat? <;>
    simp

/-- C5 amended: the parsers with per-row error handling skip exactly the
malformed rows — `parse_dkt` returns one record per well-formed row of any
input — while `get_lesions` (a bare comprehension) aborts the whole file
with the row's exception as soon as one row is malformed. -/
theorem C5_dkt_tolerant_lesions_abort (rows : List (List String)) :
    (parse_dkt_rows rows).length = rows.countP wfDkt ∧
    get_lesions_rows [["bad"], ["x", "x", "x", "10.0", "WM-hypointensities"]]
        [["x", "x", "Lesions,", "5.0"]] = Except.error PyErr.indexError := by
  constructor
  · induction rows with
    | nil => rfl
    | cons r rest ih =>
      unfold parse_dkt_rows at ih ⊢
      rw [List.filterMap_cons, List.countP_cons]
      cases h : parseDktRow r with
      | none =>
        have hw : wfDkt r = false := by rw [← parseDktRow_isSome, h]; rfl
        simp [hw, ih]
      | some d =>
        have hw : wfDkt r = true := by rw [← parseDktRow_isSome, h]; rfl
        simp [hw, ih]
  · decide

/-- C5 counterexample: one malformed row (wrong token count) among
well-formed rows makes `get_lesions` raise for the whole file instead of
skipping the row. -/
theorem C5_lesions_raise_on_bad_row :
    get_lesions_rows [["bad"], ["x", "x", "x", "10.0", "WM-hypointensities"]] [] =
      Except.error PyErr.indexError := by
  decide

end NeuroVista
namespace NeuroVista

/-! ### Association-list and `get_volume` lemmas -/

theorem alookup_eq_none_iff {α : Type} (m : List (String × α)) (k : String) :
    alookup m k = none ↔ k ∉ m.map (fun kv => kv.1) := by
  induction m with
  | nil => simp [alookup]
  | cons kv rest ih =>
    unfold alookup
    by_cases h : kv.1 = k
    · subst h
      simp
    · simp only [h, if_false, ih, List.map_cons, List.mem_cons, not_or]
      constructor
      · intro hk
        exact ⟨fun he => h he.symm, hk⟩
      · intro hk
        exact hk.2

theorem get_volume_eq_none_iff (name : String) (nuclei : List (List (String × ℚ))) :
    get_volume name nuclei = none ↔ name ∉ keysOfDicts nuclei := by
  unfold get_volume keysOfDicts
  rw [List.findSome?_eq_none_iff]
  constructor
  · intro h hmem
    obtain ⟨d, hd, hkd⟩ := List.mem_flatMap.mp hmem
    have hn := (alookup_eq_none_iff d name).mp (h d hd)
    exact hn hkd
  · intro h d hd
    rw [alookup_eq_none_iff]
    intro hk
    exact h (List.mem_flatMap.mpr ⟨d, hd, hk⟩)

theorem get_volume_isSome_iff (name : String) (nuclei : List (List (String × ℚ))) :
    (get_volume name nuclei).isSome = true ↔ name ∈ keysOfDicts nuclei := by
  rw [Option.isSome_iff_ne_none]
  constructor
  · intro h
    by_contra hk
    exact h ((get_volume_eq_none_iff name nuclei).mpr hk)
  · intro h hn
    exact ((get_volume_eq_none_iff name nuclei).mp hn) h

/-! ### Thalamus parser lemmas -/

theorem thalamusScan_names (rows : List (List String)) :
    (thalamusScan rows).2.2 = thalLeftNames rows := by
  induction rows with
  | nil => rfl
  | cons row rest ih =>
    rcases hs : thalamusScan rest with ⟨l, r, ns⟩
    rw [hs] at ih
    unfold thalamusScan
    rw [hs]
    cases h : thalClassify row <;>
      simp_all [thalLeftNames, List.filterMap_cons, h]

theorem thalamusScan_lhs_keys (rows : List (List String)) :
    keysOfDicts (thalamusScan rows).1 = thalLeftNames rows := by
  induction rows with
  | nil => rfl
  | cons row rest ih =>
    rcases hs : thalamusScan rest with ⟨l, r, ns⟩
    rw [hs] at ih
    unfold thalamusScan
    rw [hs]
    cases h : thalClassify row <;>
      simp_all [thalLeftNames, List.filterMap_cons, keysOfDicts, h]

theorem thalamusScan_rhs_keys (rows : List (List String)) :
    keysOfDicts (thalamusScan rows).2.1 = thalRightNames rows := by
  induction rows with
  | nil => rfl
  | cons row rest ih =>
    rcases hs : thalamusScan rest with ⟨l, r, ns⟩
    rw [hs] at ih
    unfold thalamusScan
    rw [hs]
    cases h : thalClassify row <;>
      simp_all [thalRightNames, List.filterMap_cons, keysOfDicts, h]

theorem process_thalamus_map_sname (rows : List (List String)) :
    (process_thalamus_rows rows).map BRec.sname = thalLeftNames rows := by
  rcases hs : thalamusScan rows with ⟨l, r, ns⟩
  unfold process_thalamus_rows
  rw [hs, List.map_map]
  have hid : (BRec.sname ∘ fun name =>
      BRec.mk name (get_volume name l) (get_volume name r)) = id := funext fun n => rfl
  rw [hid, List.map_id]
  have hnames := thalamusScan_names rows
  rw [hs] at hnames
  exact hnames

end NeuroVista
namespace NeuroVista

/-! ### `traverseFilter` and white-matter lemmas -/

theorem traverseFilter_ok {α : Type} {f : List String → Except PyErr (Option α)}
    {rows : List (List String)} {out : List α}
    (h : traverseFilter f rows = Except.ok out) :
    out = rows.filterMap (fun r =>
      match f r with
      | Except.ok o => o
      | Except.error _ => none) := by
  induction rows generalizing out with
  | nil =>
    unfold traverseFilter at h
    cases h
    rfl
  | cons r rest ih =>
    unfold traverseFilter at h
    cases hf : f r with
    | error e => rw [hf] at h; exact Except.noConfusion h
    | ok o =>
      rw [hf] at h
      cases ht : traverseFilter f rest with
      | error e => rw [ht] at h; exact Except.noConfusion h
      | ok acc =>
        rw [ht] at h
        cases h
        rw [List.filterMap_cons, hf]
        cases o with
        | none => exact ih ht
        | some a => rw [ih ht]

theorem traverseFilter_mem_ok {α : Type} {f : List String → Except PyErr (Option α)}
    {rows : List (List String)} {out : List α}
    (h : traverseFilter f rows = Except.ok out) {r : List String} (hr : r ∈ rows) :
    ∃ o, f r = Except.ok o := by
  induction rows generalizing out with
  | nil => cases hr
  | cons r0 rest ih =>
    unfold traverseFilter at h
    cases hf : f r0 with
    | error e => rw [hf] at h; exact Except.noConfusion h
    | ok o =>
      rw [hf] at h
      cases ht : traverseFilter f rest with
      | error e => rw [ht] at h; exact Except.noConfusion h
      | ok acc =>
        rcases List.mem_cons.mp hr with rfl | hmem
        · exact ⟨o, hf⟩
        · exact ih ht hmem

theorem wmNames_of_ok {rows : List (List String)} {names : List String}
    (h : traverseFilter wmNameRow rows = Except.ok names) :
    names = wmLeftNames rows := by
  rw [traverseFilter_ok h]
  unfold wmLeftNames
  apply List.filterMap_congr
  intro r _
  unfold wmNameRow
  cases r.get? 4 <;> rfl

theorem wm_side_keys (tag replTag : String) {rows : List (List String)}
    {dicts : List (List (String × ℚ))}
    (h : traverseFilter (wmRowSide tag replTag) rows = Except.ok dicts) :
    keysOfDicts dicts = rows.filterMap (fun row =>
      (row.get? 4).bind (fun s =>
        if strContains s tag then some (replaceStr s replTag "") else none)) := by
  induction rows generalizing dicts with
  | nil =>
    unfold traverseFilter at h
    cases h
    rfl
  | cons r rest ih =>
    unfold traverseFilter at h
    cases hf : wmRowSide tag replTag r with
    | error e => rw [hf] at h; exact Except.noConfusion h
    | ok o =>
      rw [hf] at h
      cases ht : traverseFilter (wmRowSide tag replTag) rest with
      | error e => rw [ht] at h; exact Except.noConfusion h
      | ok acc =>
        rw [ht] at h
        cases h
        rw [List.filterMap_cons]
        unfold wmRowSide at hf
        cases h4 : r.get? 4 with
        | none => simp only [h4] at hf; exact Except.noConfusion hf
        | some s =>
          simp only [h4] at hf
          by_cases hc : strContains s tag
          · simp only [hc, if_true] at hf ⊢
            cases h3 : r.get? 3 with
            | none => simp only [h3] at hf; exact Except.noConfusion hf
            | some t =>
              simp only [h3] at hf
              cases hq : pyFloat? t with
              | none => simp only [hq] at hf; exact Except.noConfusion hf
              | some q =>
                simp only [hq] at hf
                cases hf
                simp only [Option.some_bind, hc, if_true]
                rw [show keysOfDicts ([(replaceStr s replTag "", q)] :: acc) =
                    replaceStr s replTag "" :: keysOfDicts acc from rfl]
                rw [ih ht]
          · simp only [hc, if_false] at hf ⊢
            cases hf
            simp only [Option.some_bind, hc, if_false]
            exact ih ht

end NeuroVista
namespace NeuroVista

/-! ### Hypothalamus lemmas -/

theorem hyp_lhs_keys (m : List (String × ℚ)) :
    keysOfDicts (m.filterMap (fun kv =>
      if strContains kv.1 "left" then some [(replaceStr kv.1 "left " "", kv.2)] else none)) =
      hypLeftNames m := by
  induction m with
  | nil => rfl
  | cons kv rest ih =>
    unfold hypLeftNames at ih ⊢
    rw [List.filterMap_cons, List.filterMap_cons]
    by_cases h : strContains kv.1 "left"
    · simp only [h, if_true]
      rw [show keysOfDicts ([(replaceStr kv.1 "left " "", kv.2)] ::
          rest.filterMap (fun kv =>
            if strContains kv.1 "left" then some [(replaceStr kv.1 "left " "", kv.2)] else none)) =
          replaceStr kv.1 "left " "" :: keysOfDicts (rest.filterMap (fun kv =>
            if strContains kv.1 "left" then some [(replaceStr kv.1 "left " "", kv.2)] else none))
          from rfl]
      rw [ih]
    · simp only [h, if_false]
      exact ih

theorem hyp_rhs_keys (m : List (String × ℚ)) :
    keysOfDicts (m.filterMap (fun kv =>
      if strContains kv.1 "right" then some [(replaceStr kv.1 "right " "", kv.2)] else none)) =
      hypRightNames m := by
  induction m with
  | nil => rfl
  | cons kv rest ih =>
    unfold hypRightNames at ih ⊢
    rw [List.filterMap_cons, List.filterMap_cons]
    by_cases h : strContains kv.1 "right"
    · simp only [h, if_true]
      rw [show keysOfDicts ([(replaceStr kv.1 "right " "", kv.2)] ::
          rest.filterMap (fun kv =>
            if strContains kv.1 "right" then some [(replaceStr kv.1 "right " "", kv.2)] else none)) =
          replaceStr kv.1 "right " "" :: keysOfDicts (rest.filterMap (fun kv =>
            if strContains kv.1 "right" then some [(replaceStr kv.1 "right " "", kv.2)] else none))
          from rfl]
      rw [ih]
    · simp only [h, if_false]
      exact ih

/-! ### Success-shape inversions -/

theorem get_white_matter_ok {rows : List (List String)} {out : List BRec}
    (h : get_white_matter_rows rows = Except.ok out) :
    ∃ lhs rhs names,
      traverseFilter (wmRowSide "wm-lh" "wm-lh-") rows = Except.ok lhs ∧
      traverseFilter (wmRowSide "wm-rh" "wm-rh-") rows = Except.ok rhs ∧
      traverseFilter wmNameRow rows = Except.ok names ∧
      out = names.map (fun name =>
        ⟨name, get_volume name lhs, get_volume name rhs⟩) := by
  unfold get_white_matter_rows at h
  cases hl : traverseFilter (wmRowSide "wm-lh" "wm-lh-") rows with
  | error e => simp only [hl] at h; exact Except.noConfusion h
  | ok lhs =>
    simp only [hl] at h
    cases hr : traverseFilter (wmRowSide "wm-rh" "wm-rh-") rows with
    | error e => simp only [hr] at h; exact Except.noConfusion h
    | ok rhs =>
      simp only [hr] at h
      cases hn : traverseFilter wmNameRow rows with
      | error e => simp only [hn] at h; exact Except.noConfusion h
      | ok names =>
        simp only [hn] at h
        cases h
        exact ⟨lhs, rhs, names, rfl, rfl, rfl, rfl⟩

theorem process_hypothalamus_ok {records0 : List (String × ℚ)} {out : List BRec}
    (h : process_hypothalamus_rec records0 = Except.ok out) :
    ∃ m, hyp_renamed records0 = Except.ok m ∧
      out = (hypLeftNames m).map (fun name =>
        ⟨name,
         get_volume name (m.filterMap (fun kv =>
           if strContains kv.1 "left" then some [(replaceStr kv.1 "left " "", kv.2)] else none)),
         get_volume name (m.filterMap (fun kv =>
           if strContains kv.1 "right" then some [(replaceStr kv.1 "right " "", kv.2)] else none))⟩) := by
  unfold process_hypothalamus_rec at h
  cases hm : hyp_renamed records0 with
  | error e => simp only [hm] at h; exact Except.noConfusion h
  | ok m =>
    simp only [hm] at h
    cases h
    exact ⟨m, rfl, rfl⟩

end NeuroVista
namespace NeuroVista

/-- C9 counterexample: a thalamus stats file repeating `Left-A` is accepted
by the parser and produces two records with the same Structure name, so
Structure names are not unique for every accepted input. -/
theorem C9_duplicate_left_rows :
    process_thalamus_rows [["Left-A", "1.0"], ["Left-A", "2.0"]] =
      [⟨"A", some 1, none⟩, ⟨"A", some 1, none⟩] ∧
    ¬ ((process_thalamus_rows [["Left-A", "1.0"], ["Left-A", "2.0"]]).map BRec.sname).Nodup := by
  constructor
  · decide
  · decide

/-- C9 amended: Structure names are unique within a category provided the
input file's left-side structure names are pairwise distinct: the thalamus
and white-matter record lists inherit exactly the left-side name list. -/
theorem C9_unique_structures
    (rows rows2 : List (List String)) (out : List BRec)
    (hok : get_white_matter_rows rows2 = Except.ok out) :
    ((thalLeftNames rows).Nodup →
        ((process_thalamus_rows rows).map BRec.sname).Nodup) ∧
    ((wmLeftNames rows2).Nodup → (out.map BRec.sname).Nodup) := by
  constructor
  · intro h
    rw [process_thalamus_map_sname]
    exact h
  · intro h
    obtain ⟨lhs, rhs, names, _, _, hn, rfl⟩ := get_white_matter_ok hok
    rw [List.map_map]
    have hid : (BRec.sname ∘ fun name =>
        BRec.mk name (get_volume name lhs) (get_volume name rhs)) = id := funext fun n => rfl
    rw [hid, List.map_id, wmNames_of_ok hn]
    exact h

/-- Witness for `C9_unique_structures` at concrete stats rows. -/
theorem C9_unique_structures_witness :
    ((process_thalamus_rows [["Left-A", "1.0"]]).map BRec.sname).Nodup ∧
    (([⟨"foo", some 1, none⟩] : List BRec).map BRec.sname).Nodup := by
  constructor
  · exact (C9_unique_structures [["Left-A", "1.0"]] [["a", "b", "c", "1.0", "wm-lh-foo"]]
      [⟨"foo", some 1, none⟩] (by decide)).1 (by decide)
  · exact (C9_unique_structures [["Left-A", "1.0"]] [["a", "b", "c", "1.0", "wm-lh-foo"]]
      [⟨"foo", some 1, none⟩] (by decide)).2 (by decide)

/-- C10: in the name-matching bilateral parsers (thalamic nuclei, white
matter, hypothalamus CSV), a structure appearing only with a left marker is
emitted with RHS `None`, while a structure appearing only with a right
marker produces no record at all. -/
theorem C10_left_only_records :
    (∀ rows name, name ∈ thalLeftNames rows → name ∉ thalRightNames rows →
        ∃ rec ∈ process_thalamus_rows rows,
          rec.sname = name ∧ rec.lhs.isSome = true ∧ rec.rhs = none) ∧
    (∀ rows name, name ∉ thalLeftNames rows →
        ∀ rec ∈ process_thalamus_rows rows, rec.sname ≠ name) ∧
    (∀ rows out name, get_white_matter_rows rows = Except.ok out →
        name ∈ wmLeftNames rows → name ∉ wmRightNames rows →
        ∃ rec ∈ out, rec.sname = name ∧ rec.lhs.isSome = true ∧ rec.rhs = none) ∧
    (∀ rows out name, get_white_matter_rows rows = Except.ok out →
        name ∉ wmLeftNames rows → ∀ rec ∈ out, rec.sname ≠ name) ∧
    (∀ records0 out m name, process_hypothalamus_rec records0 = Except.ok out →
        hyp_renamed records0 = Except.ok m →
        name ∈ hypLeftNames m → name ∉ hypRightNames m →
        ∃ rec ∈ out, rec.sname = name ∧ rec.lhs.isSome = true ∧ rec.rhs = none) ∧
    (∀ records0 out m name, process_hypothalamus_rec records0 = Except.ok out →
        hyp_renamed records0 = Except.ok m →
        name ∉ hypLeftNames m → ∀ rec ∈ out, rec.sname ≠ name) := by
  refine ⟨?_, ?_, ?_, ?_, ?_, ?_⟩
  · intro rows name hin hout
    rcases hs : thalamusScan rows with ⟨l, r, ns⟩
    have hns : ns = thalLeftNames rows := by
      have h := thalamusScan_names rows
      rwa [hs] at h
    refine ⟨⟨name, get_volume name l, get_volume name r⟩, ?_, rfl, ?_, ?_⟩
    · unfold process_thalamus_rows
      rw [hs]
      exact List.mem_map_of_mem _ (hns ▸ hin)
    · apply (get_volume_isSome_iff _ _).mpr
      have h := thalamusScan_lhs_keys rows
      rw [hs] at h
      rw [h]
      exact hin
    · apply (get_volume_eq_none_iff _ _).mpr
      have h := thalamusScan_rhs_keys rows
      rw [hs] at h
      rw [h]
      exact hout
  · intro rows name hnot rec hrec
    rcases hs : thalamusScan rows with ⟨l, r, ns⟩
    have hns : ns = thalLeftNames rows := by
      have h := thalamusScan_names rows
      rwa [hs] at h
    unfold process_thalamus_rows at hrec
    rw [hs] at hrec
    obtain ⟨n, hn, rfl⟩ := List.mem_map.mp hrec
    intro heq
    exact hnot (heq ▸ hns ▸ hn)
  · intro rows out name hok hin hout
    obtain ⟨lhs, rhs, names, hl, hr, hn, rfl⟩ := get_white_matter_ok hok
    have hnames : names = wmLeftNames rows := wmNames_of_ok hn
    refine ⟨⟨name, get_volume name lhs, get_volume name rhs⟩, ?_, rfl, ?_, ?_⟩
    · exact List.mem_map_of_mem _ (hnames ▸ hin)
    · apply (get_volume_isSome_iff _ _).mpr
      rw [wm_side_keys "wm-lh" "wm-lh-" hl]
      exact hin
    · apply (get_volume_eq_none_iff _ _).mpr
      rw [wm_side_keys "wm-rh" "wm-rh-" hr]
      exact hout
  · intro rows out name hok hnot rec hrec
    obtain ⟨lhs, rhs, names, hl, hr, hn, rfl⟩ := get_white_matter_ok hok
    obtain ⟨n, hnn, rfl⟩ := List.mem_map.mp hrec
    intro heq
    exact hnot (heq ▸ (wmNames_of_ok hn) ▸ hnn)
  · intro records0 out m name hok hm hin hout
    obtain ⟨m2, hm2, rfl⟩ := process_hypothalamus_ok hok
    rw [hm] at hm2
    cases hm2
    refine ⟨_, List.mem_map_of_mem _ hin, rfl, ?_, ?_⟩
    · apply (get_volume_isSome_iff _ _).mpr
      rw [hyp_lhs_keys]
      exact hin
    · apply (get_volume_eq_none_iff _ _).mpr
      rw [hyp_rhs_keys]
      exact hout
  · intro records0 out m name hok hm hnot rec hrec
    obtain ⟨m2, hm2, rfl⟩ := process_hypothalamus_ok hok
    rw [hm] at hm2
    cases hm2
    obtain ⟨n, hnn, rfl⟩ := List.mem_map.mp hrec
    intro heq
    exact hnot (heq ▸ hnn)

/-- Witness for `C10_left_only_records` at concrete inputs for all three
parsers. -/
theorem C10_left_only_records_witness :
    (∃ rec ∈ process_thalamus_rows [["Left-OnlyL", "1.0"], ["Right-OnlyR", "2.0"]],
        rec.sname = "OnlyL" ∧ rec.lhs.isSome = true ∧ rec.rhs = none) ∧
    (∀ rec ∈ process_thalamus_rows [["Left-OnlyL", "1.0"], ["Right-OnlyR", "2.0"]],
        rec.sname ≠ "OnlyR") ∧
    (∃ rec ∈ ([⟨"foo", some 1, none⟩] : List BRec),
        rec.sname = "foo" ∧ rec.lhs.isSome = true ∧ rec.rhs = none) ∧
    (∃ rec ∈ ([⟨"tubular", some 3, none⟩, ⟨"whole", some 1, some 2⟩] : List BRec),
        rec.sname = "tubular" ∧ rec.lhs.isSome = true ∧ rec.rhs = none) := by
  refine ⟨?_, ?_, ?_, ?_⟩
  · exact C10_left_only_records.1 [["Left-OnlyL", "1.0"], ["Right-OnlyR", "2.0"]] "OnlyL"
      (by decide) (by decide)
  · exact C10_left_only_records.2.1 [["Left-OnlyL", "1.0"], ["Right-OnlyR", "2.0"]] "OnlyR"
      (by decide)
  · exact C10_left_only_records.2.2.1 [["a", "b", "c", "1.0", "wm-lh-foo"]]
      [⟨"foo", some 1, none⟩] "foo" (by decide) (by decide) (by decide)
  · exact C10_left_only_records.2.2.2.2.1
      [("subject", 0), ("whole left", 1), ("whole right", 2), ("left tubular", 3)]
      [⟨"tubular", some 3, none⟩, ⟨"whole", some 1, some 2⟩]
      [("left tubular", 3), ("left whole", 1), ("right whole", 2)] "tubular"
      (by decide) (by decide) (by decide) (by decide)

end NeuroVista
namespace NeuroVista

/-! ### Aggregator: association-list lemmas -/

theorem alookup_mem {α : Type} {m : List (String × α)} {k : String} {v : α}
    (h : alookup m k = some v) : (k, v) ∈ m := by
  induction m with
  | nil => exact Option.noConfusion h
  | cons kv rest ih =>
    obtain ⟨a, b⟩ := kv
    unfold alookup at h
    by_cases hk : a = k
    · subst hk
      rw [if_pos rfl] at h
      cases h
      exact List.mem_cons_self _ _
    · rw [if_neg hk] at h
      exact List.mem_cons_of_mem _ (ih h)

theorem alookup_map_value {α β : Type} (m : List (String × α)) (g : α → β) (k : String) :
    alookup (m.map (fun kv => (kv.1, g kv.2))) k = (alookup m k).map g := by
  induction m with
  | nil => rfl
  | cons kv rest ih =>
    obtain ⟨a, b⟩ := kv
    unfold alookup
    by_cases hk : a = k
    · simp [hk]
    · simp [hk, ih]

theorem alookup_append_single {α : Type} (m : List (String × α)) (k0 : String) (v0 : α)
    (k : String) :
    alookup (m ++ [(k0, v0)]) k =
      match alookup m k with
      | some v => some v
      | none => if k0 = k then some v0 else none := by
  induction m with
  | nil => rfl
  | cons kv rest ih =>
    obtain ⟨a, b⟩ := kv
    unfold alookup
    by_cases hk : a = k
    · simp [hk]
    · simp only [List.cons_append, hk, if_false]
      exact ih

theorem alookup_updateAt_self {α : Type} (m : List (String × α)) (k : String) (f : α → α) :
    alookup (updateAt m k f) k = (alookup m k).map f := by
  induction m with
  | nil => rfl
  | cons kv rest ih =>
    obtain ⟨a, b⟩ := kv
    unfold updateAt alookup
    by_cases hk : a = k
    · subst hk
      simp [alookup]
    · simp [hk, ih, alookup]

theorem alookup_updateAt_other {α : Type} (m : List (String × α)) (k k' : String) (f : α → α)
    (h : k' ≠ k) :
    alookup (updateAt m k f) k' = alookup m k' := by
  induction m with
  | nil => rfl
  | cons kv rest ih =>
    obtain ⟨a, b⟩ := kv
    unfold updateAt alookup
    by_cases hk : a = k
    · subst hk
      have hne : ¬ (a = k') := fun he => h he.symm
      simp [hne, alookup]
    · by_cases hk2 : a = k'
      · subst hk2
        simp [hk, alookup]
      · simp [hk, hk2, ih, alookup]

theorem alookup_dictAddTo_self (tot : List (String × ℚ)) (k : String) (v : ℚ) :
    alookup (dictAddTo tot k v) k = some (qAdd ((alookup tot k).getD 0) v) := by
  induction tot with
  | nil => simp [dictAddTo, alookup]
  | cons kv rest ih =>
    obtain ⟨a, b⟩ := kv
    unfold dictAddTo alookup
    by_cases hk : a = k
    · subst hk
      simp [alookup]
    · simp [hk, ih, alookup]

theorem alookup_dictAddTo_other (tot : List (String × ℚ)) (k k' : String) (v : ℚ)
    (h : k' ≠ k) :
    alookup (dictAddTo tot k v) k' = alookup tot k' := by
  induction tot with
  | nil =>
    have hne : ¬ (k = k') := fun he => h he.symm
    simp [dictAddTo, alookup, hne]
  | cons kv rest ih =>
    obtain ⟨a, b⟩ := kv
    unfold dictAddTo alookup
    by_cases hk : a = k
    · subst hk
      have hne : ¬ (a = k') := fun he => h he.symm
      simp [hne, alookup]
    · by_cases hk2 : a = k'
      · subst hk2
        simp [hk, alookup]
      · simp [hk, hk2, ih, alookup]

theorem optAcc_cons (t : Option ℚ) (q : ℚ) (vs : List ℚ) :
    optAcc t (q :: vs) = optAcc (some (qAdd (t.getD 0) q)) vs := by
  cases vs <;> simp [optAcc, List.foldl]

theorem optAcc_nil (t : Option ℚ) : optAcc t [] = t := rfl

theorem optAcc_append (t : Option ℚ) (vs ws : List ℚ) :
    optAcc t (vs ++ ws) = optAcc (optAcc t vs) ws := by
  induction vs generalizing t with
  | nil => rfl
  | cons q vs ih =>
    rw [List.cons_append, optAcc_cons, ih, optAcc_cons]

theorem optSum_eq_optAcc (vs : List ℚ) : optSum vs = optAcc none vs := by
  cases vs <;> rfl

theorem alookup_addFieldsTotals (tot : List (String × ℚ)) (fields : List (String × JVal))
    (k : String) :
    alookup (addFieldsTotals tot fields) k = optAcc (alookup tot k) (numValuesOf fields k) := by
  induction fields generalizing tot with
  | nil => rfl
  | cons kv fields ih =>
    unfold addFieldsTotals at ih ⊢
    rw [List.foldl_cons]
    cases hv : kv.2 with
    | num q =>
      dsimp only
      by_cases hk : kv.1 = k
      · have hnv : numValuesOf (kv :: fields) k = q :: numValuesOf fields k := by
          unfold numValuesOf
          rw [List.filterMap_cons]
          simp [hk, hv]
        rw [hnv, optAcc_cons, ih, hk, alookup_dictAddTo_self]
      · have hnv : numValuesOf (kv :: fields) k = numValuesOf fields k := by
          unfold numValuesOf
          rw [List.filterMap_cons]
          simp [hk]
        rw [hnv, ih, alookup_dictAddTo_other _ _ _ _ (fun he => hk he.symm)]
    | str s =>
      dsimp only
      have hnv : numValuesOf (kv :: fields) k = numValuesOf fields k := by
        unfold numValuesOf
        rw [List.filterMap_cons]
        by_cases hk : kv.1 = k <;> simp [hk, hv]
      rw [hnv, ih]
    | null =>
      dsimp only
      have hnv : numValuesOf (kv :: fields) k = numValuesOf fields k := by
        unfold numValuesOf
        rw [List.filterMap_cons]
        by_cases hk : kv.1 = k <;> simp [hk, hv]
      rw [hnv, ih]

end NeuroVista
namespace NeuroVista

theorem alookup_mEnsure_self {α : Type} (m : List (String × α)) (s : String) (d : α) :
    alookup (mEnsure m s d) s = some ((alookup m s).getD d) := by
  unfold mEnsure
  cases hp : alookup m s with
  | some v => simp [hp]
  | none =>
    simp only [hp, Option.isSome_none, Bool.false_eq_true, if_false]
    rw [alookup_append_single, hp]
    simp

theorem alookup_mEnsure_other {α : Type} (m : List (String × α)) (s s' : String) (d : α)
    (h : s' ≠ s) :
    alookup (mEnsure m s d) s' = alookup m s' := by
  unfold mEnsure
  by_cases hp : (alookup m s).isSome
  · simp [hp]
  · rw [if_neg hp]
    rw [alookup_append_single]
    cases hA : alookup m s' with
    | some v => rfl
    | none =>
      have hne : ¬ (s = s') := fun he => h he.symm
      simp [hne]

theorem countOf_ensureTop (st : CState) (top top' s' : String) :
    countOf (ensureTop st top) top' s' = countOf st top' s' := by
  unfold countOf countAt ensureTop
  by_cases hp : (alookup st.2 top).isSome
  · simp [hp]
  · rw [if_neg hp]
    rw [alookup_append_single]
    cases hA : alookup st.2 top' with
    | some m => rfl
    | none =>
      by_cases ht : top = top'
      · simp [ht, alookup]
      · simp [ht]

theorem totalOf_ensureTop (st : CState) (top top' s' k : String) :
    totalOf (ensureTop st top) top' s' k = totalOf st top' s' k := by
  unfold totalOf ensureTop
  by_cases hp : (alookup st.1 top).isSome
  · simp [hp]
  · rw [if_neg hp]
    rw [alookup_append_single]
    cases hA : alookup st.1 top' with
    | some m => rfl
    | none =>
      by_cases ht : top = top'
      · simp [ht, alookup]
      · simp [ht]

theorem structPresent_ensureTop (st : CState) (top top' s' : String) :
    structPresent (ensureTop st top) top' s' = structPresent st top' s' := by
  unfold structPresent ensureTop
  by_cases hp : (alookup st.1 top).isSome
  · simp [hp]
  · rw [if_neg hp]
    rw [alookup_append_single]
    cases hA : alookup st.1 top' with
    | some m => rfl
    | none =>
      by_cases ht : top = top'
      · simp [ht, alookup]
      · simp [ht]

theorem ensureTop_fst_isSome (st : CState) (top : String) :
    (alookup (ensureTop st top).1 top).isSome = true := by
  unfold ensureTop
  by_cases hp : (alookup st.1 top).isSome
  · simpa [hp] using hp
  · rw [if_neg hp]
    rw [alookup_append_single]
    cases hA : alookup st.1 top with
    | some m => simp
    | none => simp

theorem ensureTop_snd_isSome (st : CState) (top : String) :
    (alookup (ensureTop st top).2 top).isSome = true := by
  unfold ensureTop
  by_cases hp : (alookup st.2 top).isSome
  · simpa [hp] using hp
  · rw [if_neg hp]
    rw [alookup_append_single]
    cases hA : alookup st.2 top with
    | some m => simp
    | none => simp

theorem accEntry_skip (top : String) (st : CState) (e : JEntry)
    (he : truthyName e = none) : accEntry top st e = st := by
  unfold accEntry
  rw [he]

theorem accEntry_cnt_lookup (top : String) (st : CState) (e : JEntry) (s : String)
    (he : truthyName e = some s) {m0n : List (String × ℕ)}
    (h2 : alookup st.2 top = some m0n) :
    alookup (accEntry top st e).2 top =
      some (updateAt (mEnsure m0n s 0) s (fun c => c + 1)) ∧
    (∀ t, t ≠ top → alookup (accEntry top st e).2 t = alookup st.2 t) := by
  unfold accEntry
  rw [he]
  dsimp only
  constructor
  · rw [alookup_updateAt_self]
    by_cases hp : (alookup ((alookup st.2 top).getD []) s).isSome
    · simp only [hp, if_true]
      rw [h2]
      have hps : (alookup m0n s).isSome := by
        rw [h2] at hp
        simpa using hp
      rw [show mEnsure m0n s 0 = m0n by unfold mEnsure; simp [hps]]
      simp
    · rw [if_neg hp]
      rw [alookup_updateAt_self, h2]
      have hps : ¬ (alookup m0n s).isSome := by
        rw [h2] at hp
        simpa using hp
      rw [show mEnsure m0n s 0 = m0n ++ [(s, 0)] by unfold mEnsure; simp [hps]]
      simp
  · intro t ht
    by_cases hp : (alookup ((alookup st.2 top).getD []) s).isSome
    · simp only [hp, if_true]
      rw [alookup_updateAt_other _ _ _ _ ht]
    · rw [if_neg hp]
      rw [alookup_updateAt_other _ _ _ _ ht, alookup_updateAt_other _ _ _ _ ht]

theorem accEntry_cum_lookup (top : String) (st : CState) (e : JEntry) (s : String)
    (he : truthyName e = some s) {m0c : List (String × List (String × ℚ))}
    (h1 : alookup st.1 top = some m0c) :
    alookup (accEntry top st e).1 top =
      some (updateAt (mEnsure m0c s []) s (fun tot => addFieldsTotals tot e.fields)) ∧
    (∀ t, t ≠ top → alookup (accEntry top st e).1 t = alookup st.1 t) := by
  unfold accEntry
  rw [he]
  dsimp only
  constructor
  · rw [alookup_updateAt_self]
    by_cases hp : (alookup ((alookup st.1 top).getD []) s).isSome
    · simp only [hp, if_true]
      rw [h1]
      have hps : (alookup m0c s).isSome := by
        rw [h1] at hp
        simpa using hp
      rw [show mEnsure m0c s [] = m0c by unfold mEnsure; simp [hps]]
      simp
    · rw [if_neg hp]
      rw [alookup_updateAt_self, h1]
      have hps : ¬ (alookup m0c s).isSome := by
        rw [h1] at hp
        simpa using hp
      rw [show mEnsure m0c s [] = m0c ++ [(s, [])] by unfold mEnsure; simp [hps]]
      simp
  · intro t ht
    by_cases hp : (alookup ((alookup st.1 top).getD []) s).isSome
    · simp only [hp, if_true]
      rw [alookup_updateAt_other _ _ _ _ ht]
    · rw [if_neg hp]
      rw [alookup_updateAt_other _ _ _ _ ht, alookup_updateAt_other _ _ _ _ ht]

end NeuroVista
namespace NeuroVista

theorem countOf_accEntry (top : String) (st : CState) (e : JEntry) (top' s' : String)
    (h2 : (alookup st.2 top).isSome = true) :
    countOf (accEntry top st e) top' s' =
      countOf st top' s' + (if top' = top ∧ truthyName e = some s' then 1 else 0) := by
  cases he : truthyName e with
  | none =>
    rw [accEntry_skip top st e he]
    simp [he]
  | some s =>
    obtain ⟨m0n, h2'⟩ := Option.isSome_iff_exists.mp h2
    by_cases ht : top' = top
    · subst ht
      unfold countOf countAt
      rw [(accEntry_cnt_lookup top' st e s he h2').1, h2']
      simp only [Option.some_bind]
      by_cases hs : s' = s
      · subst hs
        rw [alookup_updateAt_self, alookup_mEnsure_self]
        simp [he]
      · rw [alookup_updateAt_other _ _ _ _ hs, alookup_mEnsure_other _ _ _ _ hs]
        have hcond : ¬ (truthyName e = some s') := by
          rw [he]
          intro hcontra
          exact hs (Option.some.inj hcontra).symm
        simp [hcond]
        exact fun he2 => hs he2.symm
    · unfold countOf countAt
      rw [(accEntry_cnt_lookup top st e s he h2').2 top' ht]
      simp [ht]
  
theorem totalOf_accEntry (top : String) (st : CState) (e : JEntry) (top' s' k : String)
    (h1 : (alookup st.1 top).isSome = true) :
    totalOf (accEntry top st e) top' s' k =
      if top' = top ∧ truthyName e = some s' then
        optAcc (totalOf st top' s' k) (numValuesOf e.fields k)
      else totalOf st top' s' k := by
  cases he : truthyName e with
  | none =>
    rw [accEntry_skip top st e he]
    simp [he]
  | some s =>
    obtain ⟨m0c, h1'⟩ := Option.isSome_iff_exists.mp h1
    by_cases ht : top' = top
    · subst ht
      unfold totalOf
      rw [(accEntry_cum_lookup top' st e s he h1').1, h1']
      simp only [Option.some_bind]
      by_cases hs : s' = s
      · subst hs
        rw [alookup_updateAt_self, alookup_mEnsure_self]
        simp only [eq_self_iff_true, true_and, if_true]
        rw [show (Option.map (fun tot => addFieldsTotals tot e.fields)
              (some ((alookup m0c s').getD []))).bind (fun tot => alookup tot k) =
            alookup (addFieldsTotals ((alookup m0c s').getD []) e.fields) k from rfl]
        rw [alookup_addFieldsTotals]
        cases hA : alookup m0c s' with
        | some tot => simp [hA]
        | none => simp [hA, alookup]
      · rw [alookup_updateAt_other _ _ _ _ hs, alookup_mEnsure_other _ _ _ _ hs]
        have hcond : ¬ (truthyName e = some s') := by
          rw [he]
          intro hcontra
          exact hs (Option.some.inj hcontra).symm
        simp [hcond]
        rw [if_neg (fun he2 : s = s' => hs he2.symm)]
    · unfold totalOf
      rw [(accEntry_cum_lookup top st e s he h1').2 top' ht]
      simp [ht]

theorem structPresent_accEntry (top : String) (st : CState) (e : JEntry) (top' s' : String)
    (h1 : (alookup st.1 top).isSome = true) :
    structPresent (accEntry top st e) top' s' =
      (structPresent st top' s' ||
        (decide (top' = top) && decide (truthyName e = some s'))) := by
  cases he : truthyName e with
  | none =>
    rw [accEntry_skip top st e he]
    simp [he]
  | some s =>
    obtain ⟨m0c, h1'⟩ := Option.isSome_iff_exists.mp h1
    by_cases ht : top' = top
    · subst ht
      unfold structPresent
      rw [(accEntry_cum_lookup top' st e s he h1').1, h1']
      simp only [Option.some_bind]
      by_cases hs : s' = s
      · subst hs
        rw [alookup_updateAt_self, alookup_mEnsure_self]
        simp [he]
      · rw [alookup_updateAt_other _ _ _ _ hs, alookup_mEnsure_other _ _ _ _ hs]
        have hcond : ¬ (truthyName e = some s') := by
          rw [he]
          intro hcontra
          exact hs (Option.some.inj hcontra).symm
        simp [hcond]
        exact fun he2 => absurd he2.symm hs
    · unfold structPresent
      rw [(accEntry_cum_lookup top st e s he h1').2 top' ht]
      simp [ht]

theorem accEntry_fst_isSome (top : String) (st : CState) (e : JEntry) (t : String) :
    (alookup (accEntry top st e).1 t).isSome = (alookup st.1 t).isSome := by
  cases he : truthyName e with
  | none => rw [accEntry_skip top st e he]
  | some s =>
    unfold accEntry
    rw [he]
    dsimp only
    by_cases ht : t = top
    · subst ht
      rw [alookup_updateAt_self]
      by_cases hp : (alookup ((alookup st.1 t).getD []) s).isSome
      · simp [hp]
      · rw [if_neg hp, alookup_updateAt_self]
        cases hA : alookup st.1 t <;> simp [hA]
    · rw [alookup_updateAt_other _ _ _ _ ht]
      by_cases hp : (alookup ((alookup st.1 top).getD []) s).isSome
      · simp [hp]
      · rw [if_neg hp, alookup_updateAt_other _ _ _ _ ht]

theorem accEntry_snd_isSome (top : String) (st : CState) (e : JEntry) (t : String) :
    (alookup (accEntry top st e).2 t).isSome = (alookup st.2 t).isSome := by
  cases he : truthyName e with
  | none => rw [accEntry_skip top st e he]
  | some s =>
    unfold accEntry
    rw [he]
    dsimp only
    by_cases ht : t = top
    · subst ht
      rw [alookup_updateAt_self]
      by_cases hp : (alookup ((alookup st.2 t).getD []) s).isSome
      · simp [hp]
      · rw [if_neg hp, alookup_updateAt_self]
        cases hA : alookup st.2 t <;> simp [hA]
    · rw [alookup_updateAt_other _ _ _ _ ht]
      by_cases hp : (alookup ((alookup st.2 top).getD []) s).isSome
      · simp [hp]
      · rw [if_neg hp, alookup_updateAt_other _ _ _ _ ht]

end NeuroVista
namespace NeuroVista

theorem foldl_accEntry_props (top : String) (entries : List JEntry) (st : CState)
    (h1 : (alookup st.1 top).isSome = true) (h2 : (alookup st.2 top).isSome = true) :
    (∀ t, (alookup (entries.foldl (accEntry top) st).1 t).isSome = (alookup st.1 t).isSome) ∧
    (∀ t, (alookup (entries.foldl (accEntry top) st).2 t).isSome = (alookup st.2 t).isSome) ∧
    (∀ top' s', countOf (entries.foldl (accEntry top) st) top' s' =
        countOf st top' s' +
          (if top' = top then entries.countP (fun e => truthyName e = some s') else 0)) ∧
    (∀ top' s' k, totalOf (entries.foldl (accEntry top) st) top' s' k =
        optAcc (totalOf st top' s' k)
          (if top' = top then entriesFieldVs entries s' k else [])) ∧
    (∀ top' s', structPresent (entries.foldl (accEntry top) st) top' s' =
        (structPresent st top' s' ||
          (decide (top' = top) && entries.any (fun e => truthyName e = some s')))) := by
  induction entries generalizing st with
  | nil =>
    refine ⟨fun t => rfl, fun t => rfl, fun top' s' => ?_, fun top' s' k => ?_, fun top' s' => ?_⟩
    · by_cases ht : top' = top <;> simp [ht, List.countP_nil]
    · by_cases ht : top' = top <;> simp [ht, entriesFieldVs, optAcc_nil]
    · by_cases ht : top' = top <;> simp [ht]
  | cons e rest ih =>
    rw [List.foldl_cons]
    have h1' : (alookup (accEntry top st e).1 top).isSome = true := by
      rw [accEntry_fst_isSome]
      exact h1
    have h2' : (alookup (accEntry top st e).2 top).isSome = true := by
      rw [accEntry_snd_isSome]
      exact h2
    obtain ⟨ihA, ihB, ihC, ihD, ihE⟩ := ih (accEntry top st e) h1' h2'
    refine ⟨fun t => ?_, fun t => ?_, fun top' s' => ?_, fun top' s' k => ?_, fun top' s' => ?_⟩
    · rw [ihA, accEntry_fst_isSome]
    · rw [ihB, accEntry_snd_isSome]
    · rw [ihC, countOf_accEntry top st e top' s' h2]
      by_cases ht : top' = top
      · subst ht
        rw [List.countP_cons]
        by_cases hp : truthyName e = some s'
        · simp [hp]
          omega
        · simp [hp]
      · simp [ht]
    · rw [ihD, totalOf_accEntry top st e top' s' k h1]
      by_cases ht : top' = top
      · subst ht
        have hfv : entriesFieldVs (e :: rest) s' k =
            (if truthyName e = some s' then numValuesOf e.fields k else []) ++
              entriesFieldVs rest s' k := by
          unfold entriesFieldVs
          rw [List.flatMap_cons]
        rw [if_pos rfl, if_pos rfl, hfv, optAcc_append]
        by_cases hp : truthyName e = some s'
        · simp [hp]
        · simp [hp, optAcc_nil]
      · simp [ht]
    · rw [ihE, structPresent_accEntry top st e top' s' h1]
      by_cases ht : top' = top
      · subst ht
        rw [List.any_cons]
        by_cases hp : truthyName e = some s' <;> simp [hp, Bool.or_assoc]
      · simp [ht]

end NeuroVista
namespace NeuroVista

theorem countPairs_append (ps qs : List (String × List JEntry)) (top s : String) :
    countPairs (ps ++ qs) top s = countPairs ps top s + countPairs qs top s := by
  unfold countPairs
  rw [List.map_append, List.sum_append]

theorem fieldVsPairs_append (ps qs : List (String × List JEntry)) (top s k : String) :
    fieldVsPairs (ps ++ qs) top s k = fieldVsPairs ps top s k ++ fieldVsPairs qs top s k := by
  unfold fieldVsPairs
  rw [List.flatMap_append]

theorem countPairs_single (ptop : String) (entries : List JEntry) (top s : String) :
    countPairs [(ptop, entries)] top s =
      if ptop = top then entries.countP (fun e => truthyName e = some s) else 0 := by
  simp [countPairs]

theorem fieldVsPairs_single (ptop : String) (entries : List JEntry) (top s k : String) :
    fieldVsPairs [(ptop, entries)] top s k =
      if ptop = top then entriesFieldVs entries s k else [] := by
  by_cases he : ptop = top <;> simp [fieldVsPairs, entriesFieldVs, he]

theorem accPair_inv (ps : List (String × List JEntry)) (st : CState) (p : String × List JEntry)
    (hc : ∀ top s, countOf st top s = countPairs ps top s)
    (ht : ∀ top s k, totalOf st top s k = optSum (fieldVsPairs ps top s k))
    (hp : ∀ top s, structPresent st top s = true ↔ 0 < countPairs ps top s) :
    (∀ top s, countOf (accPair st p) top s = countPairs (ps ++ [p]) top s) ∧
    (∀ top s k, totalOf (accPair st p) top s k = optSum (fieldVsPairs (ps ++ [p]) top s k)) ∧
    (∀ top s, structPresent (accPair st p) top s = true ↔ 0 < countPairs (ps ++ [p]) top s) := by
  obtain ⟨ptop, entries⟩ := p
  unfold accPair
  have h1 := ensureTop_fst_isSome st ptop
  have h2 := ensureTop_snd_isSome st ptop
  obtain ⟨_, _, fC, fD, fE⟩ := foldl_accEntry_props ptop entries (ensureTop st ptop) h1 h2
  refine ⟨fun top s => ?_, fun top s k => ?_, fun top s => ?_⟩
  · rw [fC, countOf_ensureTop, hc, countPairs_append, countPairs_single]
    by_cases he : top = ptop
    · subst he
      simp
    · rw [if_neg he, if_neg (fun hh => he hh.symm)]
  · rw [fD, totalOf_ensureTop, ht, fieldVsPairs_append, fieldVsPairs_single]
    rw [optSum_eq_optAcc, optSum_eq_optAcc, optAcc_append]
    by_cases he : top = ptop
    · subst he
      simp
    · rw [if_neg he, if_neg (fun hh => he hh.symm)]
  · rw [fE, structPresent_ensureTop, countPairs_append, countPairs_single]
    by_cases he : top = ptop
    · subst he
      simp only [eq_self_iff_true, if_true]
      rw [Bool.or_eq_true, Bool.and_eq_true]
      constructor
      · intro hOr
        rcases hOr with hOld | hNew
        · have hlt := (hp top s).mp hOld
          omega
        · have hex := List.any_eq_true.mp hNew.2
          have hpos : 0 < entries.countP (fun e => truthyName e = some s) :=
            List.countP_pos.mpr hex
          omega
      · intro hpos
        by_cases h0 : 0 < countPairs ps top s
        · exact Or.inl ((hp top s).mpr h0)
        · have hcp : 0 < entries.countP (fun e => truthyName e = some s) := by omega
          exact Or.inr ⟨by simp, List.any_eq_true.mpr (List.countP_pos.mp hcp)⟩
    · rw [if_neg (fun hh => he hh.symm)]
      have hd : decide (top = ptop) = false := by simp [he]
      rw [hd]
      simp only [Bool.false_and, Bool.or_false, Nat.add_zero]
      exact hp top s

theorem foldl_accPair_inv (news ps : List (String × List JEntry)) (st : CState)
    (hc : ∀ top s, countOf st top s = countPairs ps top s)
    (ht : ∀ top s k, totalOf st top s k = optSum (fieldVsPairs ps top s k))
    (hp : ∀ top s, structPresent st top s = true ↔ 0 < countPairs ps top s) :
    (∀ top s, countOf (news.foldl accPair st) top s = countPairs (ps ++ news) top s) ∧
    (∀ top s k, totalOf (news.foldl accPair st) top s k =
        optSum (fieldVsPairs (ps ++ news) top s k)) ∧
    (∀ top s, structPresent (news.foldl accPair st) top s = true ↔
        0 < countPairs (ps ++ news) top s) := by
  induction news generalizing ps st with
  | nil =>
    simp only [List.foldl_nil, List.append_nil]
    exact ⟨hc, ht, hp⟩
  | cons p rest ih =>
    rw [List.foldl_cons]
    obtain ⟨sc, st', sp⟩ := accPair_inv ps st p hc ht hp
    have hres := ih (ps ++ [p]) (accPair st p) sc st' sp
    rw [List.append_assoc] at hres
    simpa using hres

theorem run_json_average_inv (files : List (Option Doc)) :
    (∀ top s, countOf ((pairsOf files).foldl accPair ([], [])) top s =
        countEntries files top s) ∧
    (∀ top s k, totalOf ((pairsOf files).foldl accPair ([], [])) top s k =
        optSum (fieldValues files top s k)) ∧
    (∀ top s, structPresent ((pairsOf files).foldl accPair ([], [])) top s = true ↔
        0 < countEntries files top s) := by
  have h := foldl_accPair_inv (pairsOf files) [] ([], [])
    (fun top s => rfl) (fun top s k => rfl)
    (fun top s => by simp [structPresent, alookup, countPairs])
  simpa [countEntries, fieldValues] using h

end NeuroVista
namespace NeuroVista

/-! ### Sorting lemmas -/

theorem lexLe_total (a b : List Char) : lexLe a b = true ∨ lexLe b a = true := by
  induction a generalizing b with
  | nil => left; rfl
  | cons x xs ih =>
    cases b with
    | nil => right; rfl
    | cons y ys =>
      unfold lexLe
      by_cases hxy : x.toNat < y.toNat
      · left
        simp [hxy]
      · by_cases hyx : y.toNat < x.toNat
        · right
          simp [hyx]
        · rcases ih ys with h | h
          · left
            simp [hxy, hyx, h]
          · right
            simp [hxy, hyx, h]

theorem lexLe_trans {a b c : List Char} (hab : lexLe a b = true) (hbc : lexLe b c = true) :
    lexLe a c = true := by
  induction a generalizing b c with
  | nil => rfl
  | cons x xs ih =>
    cases b with
    | nil => exact Bool.noConfusion hab
    | cons y ys =>
      cases c with
      | nil => exact Bool.noConfusion hbc
      | cons z zs =>
        unfold lexLe at hab hbc ⊢
        by_cases hxy : x.toNat < y.toNat
        · by_cases hyz : y.toNat < z.toNat
          · have hxz : x.toNat < z.toNat := Nat.lt_trans hxy hyz
            simp [hxz]
          · by_cases hzy : z.toNat < y.toNat
            · simp [hyz, hzy] at hbc
            · have hyz' : y.toNat = z.toNat := by omega
              have hxz : x.toNat < z.toNat := by omega
              simp [hxz]
        · by_cases hyx : y.toNat < x.toNat
          · simp [hxy, hyx] at hab
          · have hxy' : x.toNat = y.toNat := by omega
            by_cases hyz : y.toNat < z.toNat
            · have hxz : x.toNat < z.toNat := by omega
              simp [hxz]
            · by_cases hzy : z.toNat < y.toNat
              · simp [hyz, hzy] at hbc
              · have hxz : ¬ x.toNat < z.toNat := by omega
                have hzx : ¬ z.toNat < x.toNat := by omega
                simp only [hxy, hyx, if_false] at hab
                simp only [hyz, hzy, if_false] at hbc
                simp only [hxz, hzx, if_false]
                exact ih hab hbc

theorem mem_insortBy {α : Type} (le : α → α → Bool) (x a : α) (l : List α) :
    a ∈ insortBy le x l ↔ a = x ∨ a ∈ l := by
  induction l with
  | nil => simp [insortBy]
  | cons b t ih =>
    unfold insortBy
    by_cases h : le b x
    · simp only [h, if_true, List.mem_cons, ih]
      tauto
    · simp [h, List.mem_cons]

theorem mem_stableSortBy {α : Type} (le : α → α → Bool) (a : α) (l : List α) :
    a ∈ stableSortBy le l ↔ a ∈ l := by
  unfold stableSortBy
  suffices h : ∀ acc : List α, a ∈ l.foldl (fun acc x => insortBy le x acc) acc ↔
      a ∈ acc ∨ a ∈ l by
    simpa using h []
  induction l with
  | nil => simp
  | cons b t ih =>
    intro acc
    rw [List.foldl_cons, ih, mem_insortBy]
    simp [List.mem_cons]
    tauto

theorem pairwise_insortBy {α : Type} (le : α → α → Bool)
    (htrans : ∀ a b c, le a b = true → le b c = true → le a c = true)
    (htotal : ∀ a b, le a b = true ∨ le b a = true)
    (x : α) (l : List α) (h : l.Pairwise (fun a b => le a b = true)) :
    (insortBy le x l).Pairwise (fun a b => le a b = true) := by
  induction l with
  | nil => simp [insortBy]
  | cons b t ih =>
    rw [List.pairwise_cons] at h
    unfold insortBy
    by_cases hb : le b x
    · rw [if_pos hb, List.pairwise_cons]
      constructor
      · intro a ha
        rcases (mem_insortBy le x a t).mp ha with rfl | hat
        · exact hb
        · exact h.1 a hat
      · exact ih h.2
    · rw [if_neg hb, List.pairwise_cons]
      have hxb : le x b = true := by
        rcases htotal b x with hh | hh
        · exact absurd hh hb
        · exact hh
      constructor
      · intro a ha
        rcases List.mem_cons.mp ha with rfl | hat
        · exact hxb
        · exact htrans x b a hxb (h.1 a hat)
      · rw [List.pairwise_cons]
        exact h

theorem pairwise_stableSortBy {α : Type} (le : α → α → Bool)
    (htrans : ∀ a b c, le a b = true → le b c = true → le a c = true)
    (htotal : ∀ a b, le a b = true ∨ le b a = true)
    (l : List α) :
    (stableSortBy le l).Pairwise (fun a b => le a b = true) := by
  unfold stableSortBy
  suffices h : ∀ acc : List α, acc.Pairwise (fun a b => le a b = true) →
      (l.foldl (fun acc x => insortBy le x acc) acc).Pairwise (fun a b => le a b = true) by
    exact h [] (by simp)
  induction l with
  | nil => intro acc hacc; simpa using hacc
  | cons b t ih =>
    intro acc hacc
    rw [List.foldl_cons]
    exact ih _ (pairwise_insortBy le htrans htotal b acc hacc)

end NeuroVista
namespace NeuroVista

theorem optSum_ne_nil {vs : List ℚ} (h : vs ≠ []) :
    optSum vs = some (vs.foldl qAdd 0) := by
  cases vs with
  | nil => exact absurd rfl h
  | cons q t => rfl

theorem averageResult_sorted (st : CState) :
    ∀ p ∈ averageResult st,
      p.2.Pairwise (fun a b : AvgEntry => lexLe a.sname.data b.sname.data = true) := by
  intro p hp
  unfold averageResult at hp
  obtain ⟨q, _, rfl⟩ := List.mem_map.mp hp
  exact pairwise_stableSortBy
    (fun a b : AvgEntry => lexLe a.sname.data b.sname.data)
    (fun a b c hab hbc => lexLe_trans hab hbc)
    (fun a b => lexLe_total a.sname.data b.sname.data) _

theorem averageResult_mem (st : CState) (top s k : String) (x : ℚ) (c : ℕ)
    (hpres : structPresent st top s = true)
    (hcnt : countOf st top s = c) (hc : 0 < c)
    (htot : totalOf st top s k = some x) :
    ∃ lst, (top, lst) ∈ averageResult st ∧
      ∃ rec ∈ lst, rec.sname = s ∧
        alookup rec.afields k = some (round2 (qDivN x c)) := by
  unfold structPresent at hpres
  cases hm : alookup st.1 top with
  | none => simp [hm] at hpres
  | some m =>
    cases hts : alookup m s with
    | none => simp [hm, hts] at hpres
    | some tot =>
      have htotk : alookup tot k = some x := by
        unfold totalOf at htot
        rw [hm] at htot
        simp only [Option.some_bind] at htot
        rw [hts] at htot
        simpa using htot
      have hcat : countAt st.2 top s = c := hcnt
      refine ⟨_, List.mem_map_of_mem _ (alookup_mem hm), ?_⟩
      refine ⟨⟨s, tot.map (fun kv => (kv.1, round2 (qDivN kv.2 c)))⟩, ?_, rfl, ?_⟩
      · rw [mem_stableSortBy]
        apply List.mem_filterMap.mpr
        refine ⟨(s, tot), alookup_mem hts, ?_⟩
        dsimp only
        rw [hcat, if_neg (by omega)]
      · dsimp only
        have hmv := alookup_map_value tot (fun v => round2 (qDivN v c)) k
        rw [hmv, htotk]
        rfl

/-- C3: `run_json_average` computes, for every sub-key and Structure found
in the loaded documents, the field-wise mean `sum/count` (count = number of
entries bearing the Structure under that sub-key), rounded to 2 decimals;
each sub-key's records are sorted lexicographically by Structure name; and
on the concrete two-series CA1 example (100/110 LHS, 200/220 RHS) the
averaged document contains exactly `CA1 ↦ 105.0 / 210.0`. -/
theorem C3_cross_subject_average (files : List (Option Doc)) (top s k : String)
    (hcount : 0 < countEntries files top s)
    (hnum : fieldValues files top s k ≠ []) :
    (∃ lst, (top, lst) ∈ run_json_average files ∧
        ∃ rec ∈ lst, rec.sname = s ∧
          alookup rec.afields k =
            some (round2 (qDivN (sumField files top s k) (countEntries files top s)))) ∧
    (∀ p ∈ run_json_average files,
        p.2.Pairwise (fun a b : AvgEntry => lexLe a.sname.data b.sname.data = true)) ∧
    run_json_average [some exDoc1, some exDoc2] =
      [("hippocampus",
        [⟨"CA1", [("LHS Volume (mm3)", 105), ("RHS Volume (mm3)", 210)]⟩])] := by
  obtain ⟨hC, hT, hP⟩ := run_json_average_inv files
  refine ⟨?_, ?_, by decide⟩
  · have hpres := (hP top s).mpr hcount
    have htot : totalOf ((pairsOf files).foldl accPair ([], [])) top s k =
        some (sumField files top s k) := by
      rw [hT top s k, optSum_ne_nil hnum]
      rfl
    exact averageResult_mem _ top s k _ _ hpres (hC top s) hcount htot
  · intro p hp
    exact averageResult_sorted _ p hp

/-- Witness for `C3_cross_subject_average` on the two-series CA1 example. -/
theorem C3_cross_subject_average_witness :
    (∃ lst, ("hippocampus", lst) ∈ run_json_average [some exDoc1, some exDoc2] ∧
        ∃ rec ∈ lst, rec.sname = "CA1" ∧
          alookup rec.afields "LHS Volume (mm3)" =
            some (round2 (qDivN
              (sumField [some exDoc1, some exDoc2] "hippocampus" "CA1" "LHS Volume (mm3)")
              (countEntries [some exDoc1, some exDoc2] "hippocampus" "CA1")))) ∧
    (∀ p ∈ run_json_average [some exDoc1, some exDoc2],
        p.2.Pairwise (fun a b : AvgEntry => lexLe a.sname.data b.sname.data = true)) ∧
    run_json_average [some exDoc1, some exDoc2] =
      [("hippocampus",
        [⟨"CA1", [("LHS Volume (mm3)", 105), ("RHS Volume (mm3)", 210)]⟩])] :=
  C3_cross_subject_average [some exDoc1, some exDoc2] "hippocampus" "CA1" "LHS Volume (mm3)"
    (by decide) (by decide)

end NeuroVista
